import Mathlib

/-!
Shallow embedding of the core of rancher/cherry-pick-action:

* `internal/labels` (target collection and branch normalization),
* `internal/github/naming.go` (deterministic cherry-pick branch naming),
* `internal/git` (shell executor: retry policy and merge-commit handling),
* `internal/orchestrator` (evaluation/execution state machine).

Strings are modelled as Lean `String`s (lists of characters); Go's byte
indexing coincides with character indexing on the ASCII data these
functions manipulate.  External collaborators (the GitHub client and the
git workspace) are modelled as response oracles: structures of functions
giving the answer of each remote/worktree operation, with every call the
orchestrator makes recorded in an event trace.
-/

set_option maxHeartbeats 1000000
set_option maxRecDepth 4000

/-- Characters trimmed by Go's strings.TrimSpace (unicode.IsSpace). -/
def goIsSpace (c : Char) : Bool :=
  c = ' ' || c = '\t' || c = '\n' || c = Char.ofNat 11 || c = Char.ofNat 12 ||
  c = '\r' || c = Char.ofNat 0x85 || c = Char.ofNat 0xA0

/-- Drop characters satisfying `p` from both ends of a character list. -/
def trimListP (p : Char → Bool) (l : List Char) : List Char :=
  ((l.dropWhile p).reverse.dropWhile p).reverse

/-- Go strings.TrimSpace on the character-list level. -/
def trimSpaceL (l : List Char) : List Char := trimListP goIsSpace l

/-- Go strings.TrimSpace. -/
def trimSpaceS (s : String) : String := ⟨trimSpaceL s.data⟩

/-- Go strings.Trim with a cutset of characters. -/
def trimCutL (cut : List Char) (l : List Char) : List Char :=
  trimListP (fun c => cut.contains c) l

/-- Go strings.Trim wrapped on `String`. -/
def trimCutS (cut : List Char) (s : String) : String := ⟨trimCutL cut s.data⟩

/-- Go strings.TrimRight with a cutset. -/
def trimRightCutL (cut : List Char) (l : List Char) : List Char :=
  (l.reverse.dropWhile (fun c => cut.contains c)).reverse

/-- ASCII lower-casing of a character list (Go strings.ToLower on the ASCII
data handled here). -/
def lowerL (l : List Char) : List Char := l.map Char.toLower

/-- ASCII lower-casing on `String`. -/
def lowerS (s : String) : String := ⟨lowerL s.data⟩

/-- Go strings.HasPrefix: `b` begins with `a`. -/
def startsWithL (b a : List Char) : Bool := a.isPrefixOf b

/-- Go strings.HasPrefix wrapped on `String`. -/
def startsWithS (b a : String) : Bool := startsWithL b.data a.data

/-- Go strings.EqualFold, restricted to the ASCII folding Char.toLower gives. -/
def equalFoldL (a b : List Char) : Bool := lowerL a = lowerL b

/-- Decimal digits of a natural number, most significant first
(Go fmt %d on a non-negative value). -/
def natDecDigits (n : Nat) : List Char :=
  if h : n < 10 then [Char.ofNat (48 + n)]
  else natDecDigits (n / 10) ++ [Char.ofNat (48 + n % 10)]
decreasing_by
  exact Nat.div_lt_self (Nat.lt_of_lt_of_le (by norm_num) (Nat.le_of_not_lt h)) (by norm_num)

/-- Go fmt %d of a (possibly negative) integer, as a character list. -/
def intDecL (i : Int) : List Char :=
  if i < 0 then '-' :: natDecDigits (-i).toNat else natDecDigits i.toNat

/-- Go fmt %d of an integer. -/
def intDecS (i : Int) : String := ⟨intDecL i⟩

/-! ## internal/labels -/

/-- Target represents a release branch derived from a cherry-pick label
(`labels.Target`). -/
structure Target where
  labelName : String
  branch : String
deriving DecidableEq, Repr

/-- NormalizeBranch trims whitespace, removes leading/trailing slashes, and
strips a leading refs/heads/ (case-insensitively) from a branch name
(`labels.NormalizeBranch`). -/
def NormalizeBranch (s : String) : String :=
  let b1 := trimSpaceL s.data
  let b2 := trimCutL ['/'] b1
  let b3 :=
    if b2.length ≥ 11 ∧ equalFoldL (b2.take 11) "refs/heads/".data then b2.drop 11 else b2
  let b4 := trimSpaceL b3
  let b5 := trimCutL ['/'] b4
  ⟨trimSpaceL b5⟩

/-- parseBranch returns the normalized branch if the (trimmed) label matches
the prefix case-insensitively and the remainder normalizes to a non-empty
branch (`labels.parseBranch`); `pfx` is the already-trimmed label prefix. -/
def parseBranch (labelName pfx : String) : Option String :=
  let ln := trimSpaceL labelName.data
  if ln = [] then none
  else if ¬ startsWithL (lowerL ln) (lowerL pfx.data) then none
  else
    let branch := NormalizeBranch ⟨ln.drop pfx.data.length⟩
    if branch = "" then none else some branch

/-- The seen-set loop of CollectTargets: walk the label names, keep the first
target for each distinct normalized branch. -/
def collectLoop (pfx : String) (seen : List String) : List String → List Target
  | [] => []
  | name :: rest =>
    match parseBranch name pfx with
    | none => collectLoop pfx seen rest
    | some b =>
      if b ∈ seen then collectLoop pfx seen rest
      else { labelName := name, branch := b } :: collectLoop pfx (b :: seen) rest

/-- CollectTargets scans label names, extracts those matching the prefix, and
returns deduplicated targets in first-seen order (`labels.CollectTargets`). -/
def CollectTargets (labelNames : List String) (pfx : String) : Except String (List Target) :=
  let p := trimSpaceS pfx
  if p = "" then .error "label prefix cannot be empty"
  else .ok (collectLoop p [] labelNames)

/-- Whether a character list contains two consecutive dots (Go
strings.Contains(s, "..")). -/
def hasDoubleDot : List Char → Bool
  | '.' :: '.' :: _ => true
  | _ :: rest => hasDoubleDot rest
  | [] => false

/-- validateBranchName rejects empty branches, whitespace, "..", and forbidden
git ref characters (`labels.validateBranchName`). -/
def validateBranchName (branch : String) : Except String Unit :=
  if branch = "" then .error "branch cannot be empty"
  else if branch.data.any (fun c => c = ' ' || c = '\t' || c = '\n' || c = '\r') then
    .error "branch cannot contain whitespace"
  else if hasDoubleDot branch.data then .error "branch cannot contain '..'"
  else if branch.data.any
      (fun c => ['~', '^', ':', '?', '*', '[', ']', '@', '{', '\\'].contains c) then
    .error "branch contains forbidden git characters"
  else .ok ()

/-- ValidateTargets applies validateBranchName to every target, failing on the
first invalid branch (`labels.ValidateTargets`). -/
def ValidateTargets : List Target → Except String Unit
  | [] => .ok ()
  | t :: rest =>
    match validateBranchName t.branch with
    | .error e =>
      .error ("invalid branch \"" ++ t.branch ++ "\" from label \"" ++ t.labelName ++ "\": " ++ e)
    | .ok _ => ValidateTargets rest

/-- The seen-set loop of MergeTargets. -/
def mergeLoop (seen : List String) : List Target → List Target
  | [] => []
  | t :: rest =>
    if t.branch ∈ seen then mergeLoop seen rest
    else t :: mergeLoop (t.branch :: seen) rest

/-- MergeTargets merges groups of targets preserving order and dropping
duplicate branches (`labels.MergeTargets`). -/
def MergeTargets (groups : List (List Target)) : List Target :=
  mergeLoop [] groups.flatten

/-- Keep the first occurrence of each element not already seen (property
vocabulary used to state first-seen-order deduplication). -/
def dedupFirstFrom (seen : List String) : List String → List String
  | [] => []
  | b :: rest =>
    if b ∈ seen then dedupFirstFrom seen rest
    else b :: dedupFirstFrom (b :: seen) rest

/-- Keep the first occurrence of each element. -/
def dedupFirst (l : List String) : List String := dedupFirstFrom [] l

/-! ## internal/github/naming.go -/

/-- Characters the branch-segment sanitizer keeps: the complement of the
disallowedBranchChars pattern (everything outside ASCII letters, digits, dot,
underscore, slash and dash is disallowed). -/
def allowedBranchChar (c : Char) : Bool :=
  ('a' ≤ c && c ≤ 'z') || ('A' ≤ c && c ≤ 'Z') || ('0' ≤ c && c ≤ '9') ||
  c = '.' || c = '_' || c = '/' || c = '-'

/-- Replace every maximal run of disallowed characters with a single '-'
(the regexp ReplaceAllString of disallowedBranchChars with "-"). -/
def squashDisallowed : List Char → List Char
  | [] => []
  | c :: cs =>
    if allowedBranchChar c then c :: squashDisallowed cs
    else '-' :: squashDisallowed (cs.dropWhile (fun d => ¬ allowedBranchChar d))
termination_by l => l.length
decreasing_by
  · simp only [List.length_cons]
    omega
  · simp only [List.length_cons]
    have h2 : (cs.dropWhile (fun d => ¬ allowedBranchChar d)).length ≤ cs.length :=
      (List.dropWhile_suffix _).sublist.length_le
    omega

/-- One left-to-right pass of Go strings.ReplaceAll(s, [a,a], [a]). -/
def collapsePairOnce (a : Char) : List Char → List Char
  | x :: y :: rest =>
    if x = a ∧ y = a then a :: collapsePairOnce a rest
    else x :: collapsePairOnce a (y :: rest)
  | l => l
termination_by l => l.length

/-- Whether the list contains two adjacent copies of `a`
(Go strings.Contains(s, [a,a])). -/
def containsPair (a : Char) : List Char → Bool
  | x :: y :: rest => (x = a ∧ y = a) || containsPair a (y :: rest)
  | _ => false
termination_by l => l.length

/-- The fixpoint loop `for strings.Contains(s, [a,a]) { s = ReplaceAll ... }`,
run with an explicit fuel.  Each pass over a list that still contains an
adjacent pair strictly shrinks it, so fuel `l.length` always reaches the
fixpoint (collapsePair_fix below). -/
def collapsePairFuel (a : Char) : Nat → List Char → List Char
  | 0, l => l
  | fuel + 1, l => if containsPair a l then collapsePairFuel a fuel (collapsePairOnce a l) else l

/-- The collapsing loop of sanitizeBranchSegment, at its always-sufficient
fuel. -/
def collapsePair (a : Char) (l : List Char) : List Char := collapsePairFuel a l.length l

/-- One left-to-right pass of strings.ReplaceAll replacing dash-slash-dash
with a single slash. -/
def replaceDashSlashDash : List Char → List Char
  | '-' :: '/' :: '-' :: rest => '/' :: replaceDashSlashDash rest
  | c :: rest => c :: replaceDashSlashDash rest
  | [] => []

/-- Options controlling cherry-pick branch naming (`gh.BranchNamingOptions`);
the field names follow the Go struct (Prefix, MaxLength, HashLength,
SanitizeEmptyWith). -/
structure BranchNamingOptions where
  pfx : String
  maxLength : Int
  hashLength : Int
  sanitizeEmptyWith : String
deriving DecidableEq, Repr

/-- The package-level defaultBranchNaming configuration. -/
def defaultBranchNaming : BranchNamingOptions :=
  { pfx := "cherry-pick", maxLength := 63, hashLength := 8, sanitizeEmptyWith := "target" }

/-- sanitizeBranchSegment: trim, map spaces and disallowed characters to '-',
trim dash, slash and dot from the ends, lowercase, rewrite dash-slash-dash to a
slash, collapse "//" and "--" runs, trim '-' again, substituting the fallback
token when empty. -/
def sanitizeBranchSegment (segment : String) (config : BranchNamingOptions) : String :=
  let s1 := trimSpaceL segment.data
  let s2 := s1.map (fun c => if c = ' ' then '-' else c)
  let s3 := squashDisallowed s2
  let s4 := trimCutL ['-', '/', '.'] s3
  let s5 := if s4 = [] then config.sanitizeEmptyWith.data else s4
  let s6 := lowerL s5
  let s7 := replaceDashSlashDash s6
  let s8 := collapsePair '/' s7
  let s9 := collapsePair '-' s8
  let s10 := trimCutL ['-'] s9
  if s10 = [] then config.sanitizeEmptyWith else ⟨s10⟩

/-- One step of the 32-bit FNV-1a hash (hash/fnv New32a): xor the byte in,
multiply by the prime, modulo 2^32. -/
def fnv1aStep (h : Nat) (byte : Nat) : Nat := ((h ^^^ byte) * 16777619) % 4294967296

/-- 32-bit FNV-1a over the characters of the (ASCII) sanitized segment; the
sanitizer only emits ASCII, so `Char.toNat` is the UTF-8 byte. -/
def fnv32a (l : List Char) : Nat := l.foldl (fun h c => fnv1aStep h c.toNat) 2166136261

/-- Lowercase hex digit for a value below 16. -/
def hexDigit (k : Nat) : Char :=
  if k < 10 then Char.ofNat (48 + k) else Char.ofNat (87 + k)

/-- Hex digits of a natural number, most significant first. -/
def natHexDigits (n : Nat) : List Char :=
  if h : n < 16 then [hexDigit n]
  else natHexDigits (n / 16) ++ [hexDigit (n % 16)]
decreasing_by
  exact Nat.div_lt_self (Nat.lt_of_lt_of_le (by norm_num) (Nat.le_of_not_lt h)) (by norm_num)

/-- Go fmt %0*x: hex digits zero-padded on the left to the given width. -/
def hexPad (width : Nat) (n : Nat) : List Char :=
  List.replicate (width - (natHexDigits n).length) '0' ++ natHexDigits n

/-- The stable short hash appended on truncation: the FNV-1a hash of the
original sanitized segment, rendered as (by default 8) hex digits. -/
def fnvHex (seg : List Char) (hashLen : Nat) : List Char := hexPad hashLen (fnv32a seg)

/-- shortenTargetSegment truncates the sanitized target segment to fit the
available room, re-trims "-./" and appends "-<hash>"; degenerate room falls
back to (a slice of) the hash or the fallback token. -/
def shortenTargetSegment (segment : String) (available : Int) (config : BranchNamingOptions) :
    String :=
  if available ≤ 0 then config.sanitizeEmptyWith
  else
    let avail : Nat := available.toNat
    let seg := segment.data
    if seg.length ≤ avail then segment
    else
      let hashLen : Nat := if config.hashLength ≤ 0 then 8 else config.hashLength.toNat
      let hex := fnvHex seg hashLen
      let suffix := '-' :: hex
      if suffix.length > avail then
        -- not enough room for hyphen + full hash; fall back to a hash slice
        if hex.length ≥ avail then ⟨hex.take avail⟩ else ⟨hex⟩
      else
        let baseLen : Int := (avail : Int) - suffix.length
        if baseLen ≤ 0 then ⟨suffix.drop (suffix.length - avail)⟩
        else
          let base0 := if seg.length > baseLen.toNat then seg.take baseLen.toNat else seg
          let base1 := trimRightCutL ['-', '.', '/'] base0
          let base2 :=
            if base1 = [] then
              let fb := config.sanitizeEmptyWith.data
              if fb.length > baseLen.toNat then fb.take baseLen.toNat else fb
            else base1
          ⟨trimRightCutL ['-', '.', '/'] base2 ++ suffix⟩

/-- BranchNameForCherryPick with an explicit configuration (the body of
`gh.BranchNameForCherryPick` after options merging). -/
def branchNameWith (config : BranchNamingOptions) (targetBranch : String) (sourcePR : Int) :
    String :=
  let sanitized := sanitizeBranchSegment targetBranch config
  let prSegment : String := "pr-" ++ intDecS sourcePR
  let branch : String := config.pfx ++ "/" ++ sanitized ++ "/" ++ prSegment
  if (branch.data.length : Int) ≤ config.maxLength then branch
  else
    let available0 : Int :=
      config.maxLength - config.pfx.data.length - 1 - prSegment.data.length - 1
    let available : Int := if available0 < 1 then 1 else available0
    let shortened := shortenTargetSegment sanitized available config
    config.pfx ++ "/" ++ shortened ++ "/" ++ prSegment

/-- Merging of optional overrides into the default naming options (the opts
handling at the top of `gh.BranchNameForCherryPick`). -/
def mergeNamingOptions (o : BranchNamingOptions) : BranchNamingOptions :=
  { pfx := if o.pfx ≠ "" then o.pfx else defaultBranchNaming.pfx
    maxLength := if o.maxLength > 0 then o.maxLength else defaultBranchNaming.maxLength
    hashLength := if o.hashLength > 0 then o.hashLength else defaultBranchNaming.hashLength
    sanitizeEmptyWith :=
      if o.sanitizeEmptyWith ≠ "" then o.sanitizeEmptyWith
      else defaultBranchNaming.sanitizeEmptyWith }

/-- BranchNameForCherryPick as called without options (every call site in the
repository): the default configuration. -/
def BranchNameForCherryPick (targetBranch : String) (sourcePR : Int) : String :=
  branchNameWith defaultBranchNaming targetBranch sourcePR

/-! ## internal/git: the shell executor's runGit retry loop -/

/-- primaryGitCommand extracts the subcommand from a git argument vector,
skipping flags and the parameters of -C, --git-dir and -c. -/
def primaryGitCommand : List String → String
  | [] => ""
  | a :: rest =>
    if a = "--" then
      match rest with
      | [] => ""
      | b :: _ => b
    else if startsWithS a "-" then
      if a = "-C" ∨ a = "--git-dir" ∨ a = "-c" then
        match rest with
        | [] => ""
        | _ :: rest2 => primaryGitCommand rest2
      else primaryGitCommand rest
    else a

/-- isNetworkCommand: clone, fetch, push, pull and remote touch the network. -/
def isNetworkCommand (cmd : String) : Bool :=
  cmd = "clone" || cmd = "fetch" || cmd = "push" || cmd = "pull" || cmd = "remote"

/-- The retry-relevant knobs of git.ShellExecutor (NetworkRetries,
NetworkRetryDelay); the delay is in nanoseconds like Go's time.Duration. -/
structure RunConfig where
  networkRetries : Int
  networkRetryDelay : Int
deriving DecidableEq, Repr

/-- One second, as a Go time.Duration. -/
def goSecond : Int := 1000000000

/-- networkRetriesValue: negative means zero, zero means the default of 2. -/
def networkRetriesValue (cfg : RunConfig) : Nat :=
  if cfg.networkRetries < 0 then 0
  else if cfg.networkRetries = 0 then 2
  else cfg.networkRetries.toNat

/-- networkRetryDelayValue: non-positive means the default of one second. -/
def networkRetryDelayValue (cfg : RunConfig) : Int :=
  if cfg.networkRetryDelay ≤ 0 then goSecond else cfg.networkRetryDelay

/-- The zero-valued executor configuration (a fresh ShellExecutor). -/
def defaultRunConfig : RunConfig := { networkRetries := 0, networkRetryDelay := 0 }

/-- Outcome of one runGitOnce invocation, as observed by runGit: success, a
git failure, or a context error (canceled or past its deadline). -/
inductive AttemptOut where
  | success
  | gitErr (msg : String)
  | ctxErr
deriving DecidableEq, Repr

/-- The external world runGit interacts with: the outcome of the k-th
subprocess attempt, and whether the governing context is done during the
backoff sleep that follows attempt k. -/
structure RunOracle where
  attemptOut : Nat → AttemptOut
  cancelDuringSleep : Nat → Bool

/-- The observable actions of runGit: subprocess attempts and backoff sleeps
(with their duration). -/
inductive REvent where
  | attempt (k : Nat)
  | sleep (d : Int)
deriving DecidableEq, Repr

/-- Result of the runGit loop. -/
inductive RunOutcome where
  | ok
  | err (last : AttemptOut)
  | ctxDone
deriving DecidableEq, Repr

/-- The body of runGit's for loop, recursing on the remaining attempts
(`retries + 1 - attempt`); faithful to git/noop.go lines 353-397: break on
success, on non-network commands, on context errors, on exhaustion, and on
cancellation during the backoff sleep, doubling the (at least one second)
delay after each sleep. -/
def runGitLoop (oracle : RunOracle) (isNet : Bool) (retries : Nat) :
    Nat → Nat → Int → RunOutcome × List REvent
  | 0, _, _ => (.ctxDone, [])
  | fuel + 1, attempt, delay =>
    match oracle.attemptOut attempt with
    | .success => (.ok, [.attempt attempt])
    | failure =>
      if ¬ isNet then (.err failure, [.attempt attempt])
      else if failure = .ctxErr then (.err failure, [.attempt attempt])
      else if attempt = retries then (.err failure, [.attempt attempt])
      else if oracle.cancelDuringSleep attempt then (.ctxDone, [.attempt attempt])
      else
        let delay2 := (if delay < goSecond then goSecond else delay) * 2
        let (res, evs) := runGitLoop oracle isNet retries fuel (attempt + 1) delay2
        (res, .attempt attempt :: .sleep delay :: evs)

/-- runGit: network commands get networkRetriesValue extra attempts with
exponential backoff; everything else runs once. -/
def runGit (cfg : RunConfig) (oracle : RunOracle) (args : List String) :
    RunOutcome × List REvent :=
  let isNet := isNetworkCommand (primaryGitCommand args)
  let retries := if isNet then networkRetriesValue cfg else 0
  runGitLoop oracle isNet retries (retries + 1) 0 (networkRetryDelayValue cfg)

/-! ## internal/git: the shell workspace's CherryPick -/

/-- Go strings.Fields: split around runs of whitespace, dropping empties. -/
def goFields : List Char → List (List Char)
  | [] => []
  | c :: cs =>
    if goIsSpace c then goFields cs
    else
      (c :: cs.takeWhile (fun d => ¬ goIsSpace d)) ::
        goFields (cs.dropWhile (fun d => ¬ goIsSpace d))
termination_by l => l.length
decreasing_by
  · simp only [List.length_cons]
    omega
  · simp only [List.length_cons]
    have h2 : (cs.dropWhile (fun d => ¬ goIsSpace d)).length ≤ cs.length :=
      (List.dropWhile_suffix _).sublist.length_le
    omega

/-- The oracle for a shell workspace's merge-commit probe: the combined output
of `git rev-list --parents -n 1 <commit>` (or a git failure). -/
structure RevListOracle where
  revListOut : String → Except String String

/-- isMergeCommit: a commit is a merge when `rev-list --parents -n 1` prints
more than two whitespace-separated fields (the commit plus at least two
parents). -/
def isMergeCommit (oracle : RevListOracle) (commit : String) : Except String Bool :=
  match oracle.revListOut commit with
  | .error e => .error e
  | .ok out => .ok (decide ((goFields (trimSpaceL out.data)).length > 2))

/-- shellCherryPick returns the workspace CherryPick outcome together with the
argument vectors of the `git cherry-pick` invocations it performs: merge
commits get mainline parent 1 (-m 1), other commits get no mainline argument
(git/noop.go lines 266-284). -/
def shellCherryPick (oracle : RevListOracle) (execOut : List String → Except String Unit)
    (commit : String) : Except String Unit × List (List String) :=
  match isMergeCommit oracle commit with
  | .error e => (.error ("check if merge commit: " ++ e), [])
  | .ok true =>
    match execOut ["cherry-pick", "-m", "1", commit] with
    | .error e => (.error ("git cherry-pick " ++ commit ++ ": " ++ e),
        [["cherry-pick", "-m", "1", commit]])
    | .ok _ => (.ok (), [["cherry-pick", "-m", "1", commit]])
  | .ok false =>
    match execOut ["cherry-pick", commit] with
    | .error e => (.error ("git cherry-pick " ++ commit ++ ": " ++ e),
        [["cherry-pick", commit]])
    | .ok _ => (.ok (), [["cherry-pick", commit]])

/-! ## internal/github: data carried across the orchestrator boundary -/

/-- PRMetadata: the source pull request snapshot (`gh.PRMetadata`; the fields
the orchestrator reads). -/
structure PRMetadata where
  owner : String
  repo : String
  number : Int
  title : String
  body : String
  mergeSHA : String
  headSHA : String
  labels : List String
  assignees : List String
  isMerged : Bool
  isFromFork : Bool
deriving DecidableEq, Repr

/-- CherryPickPR: reference to an existing or newly created cherry-pick PR. -/
structure CherryPickPR where
  url : String
  number : Int
  head : String
  base : String
deriving DecidableEq, Repr

/-- CreatePROptions: the metadata used to open a cherry-pick PR. -/
structure CreatePROptions where
  title : String
  body : String
  head : String
  base : String
  draft : Bool
  labels : List String
  assignees : List String
  maintainerCanModify : Bool
deriving DecidableEq, Repr

/-- Errors from the GitHub collaborator; branchNotFound models the sentinel
`gh.ErrBranchNotFound`, everything else is an opaque message. -/
inductive GhErr where
  | branchNotFound
  | other (m : String)
deriving DecidableEq, Repr

/-- The error text, as rendered into wrapped orchestrator errors
(ErrBranchNotFound prints "github: branch not found"). -/
def GhErr.msg : GhErr → String
  | .branchNotFound => "github: branch not found"
  | .other m => m

/-! ## internal/orchestrator -/

/-- TargetStatus describes the evaluation state for a target branch. -/
inductive TargetStatus where
  | pending
  | dryRun
  | succeeded
  | failed
  | placeholderPR
  | skippedNoBranch
  | skippedExistingPR
  | skippedAlreadyPresent
deriving DecidableEq, Repr

/-- TargetResult captures per-target orchestration outcomes. -/
structure TargetResult where
  target : Target
  status : TargetStatus
  reason : String
  existingPR : Option CherryPickPR
  createdPR : Option CherryPickPR
deriving DecidableEq, Repr

/-- Result captures the outcome of a single orchestrator run. -/
structure RunResult where
  targets : List TargetResult
  skipped : Bool
  skippedReason : String
deriving DecidableEq, Repr

/-- Config: the runtime controls the orchestrator needs (labelPre embeds
LabelPrefix). -/
structure Config where
  labelPre : String
  conflictStrategy : String
  dryRun : Bool
  targetBranches : List String
deriving DecidableEq, Repr

/-- The GitHub collaborator as a response oracle.  getPR is indexed by call
ordinal (the orchestrator fetches the PR twice); the other operations answer
as functions of the arguments the orchestrator supplies (owner, repo and PR
number are fixed for the run and omitted). -/
structure GhOracle where
  getPR : Nat → Except GhErr PRMetadata
  hasLabel : String → Except GhErr Bool
  ensureBranchExists : String → Except GhErr Unit
  listCherryPickPRs : String → Except GhErr (List CherryPickPR)
  commitExistsOnBranch : String → String → Except GhErr Bool
  createPullRequest : CreatePROptions → Except GhErr CherryPickPR
  addLabel : String → Except GhErr Unit

/-- The git workspace collaborator as a response oracle (git.Workspace). -/
structure WsOracle where
  checkoutBranch : String → Except String Unit
  createBranchFrom : String → String → Except String Unit
  cherryPick : String → Except String Unit
  abortCherryPick : Except String Unit
  commitAllowEmpty : String → Except String Unit
  pushBranch : String → Except String Unit
  cleanup : Except String Unit

/-- The git executor: the workspace produced by the k-th Prepare call (the
call ordinal stands in for the executor's hidden state). -/
def GitOracle : Type := Nat → Except String WsOracle

/-- Every collaborator call the orchestrator makes, in order. -/
inductive Event where
  | getPR
  | hasLabel (label : String)
  | ensureBranch (branch : String)
  | listPRs (branch : String)
  | commitExists (sha branch : String)
  | prepare
  | checkout (branch : String)
  | createBranch (branch from2 : String)
  | cherryPick (sha : String)
  | abortCP
  | commitEmpty (msg : String)
  | push (branch : String)
  | cleanup
  | createPR (opts : CreatePROptions)
  | addLabel (label : String)
deriving DecidableEq, Repr

/-- Remote mutations: pull-request creation and label addition (the
orchestrator performs no remote branch creation). -/
def Event.isMutatingRemote : Event → Bool
  | .createPR _ => true
  | .addLabel _ => true
  | _ => false

/-- Workspace operations. -/
def Event.isWorkspaceOp : Event → Bool
  | .prepare => true
  | .checkout _ => true
  | .createBranch _ _ => true
  | .cherryPick _ => true
  | .abortCP => true
  | .commitEmpty _ => true
  | .push _ => true
  | .cleanup => true
  | _ => false

/-- Count the pull-request creations in a trace. -/
def countCreatePR (tr : List Event) : Nat :=
  (tr.filter fun e => match e with | .createPR _ => true | _ => false).length

/-- Count the branch pushes in a trace. -/
def countPush (tr : List Event) : Nat :=
  (tr.filter fun e => match e with | .push _ => true | _ => false).length

/-- Count the (empty) commit creations in a trace. -/
def countCommitEmpty (tr : List Event) : Nat :=
  (tr.filter fun e => match e with | .commitEmpty _ => true | _ => false).length

/-- buildMetadataComment renders the machine-parseable cherry-pick marker
(orchestrator.go lines 483-494). -/
def buildMetadataComment (pr : PRMetadata) (target : Target) : String :=
  let owner := trimSpaceS pr.owner
  let repo := trimSpaceS pr.repo
  let source :=
    if owner ≠ "" ∧ repo ≠ "" then owner ++ "/" ++ repo
    else if repo = "" then "unknown-repo" else repo
  "<!-- cherry-pick-of: " ++ source ++ "#" ++ intDecS pr.number ++ " -> " ++
    target.branch ++ " -->"

/-- filterCherryPickLabels drops every label whose case-insensitive trimmed
text starts with the configured prefix (orchestrator.go lines 465-481). -/
def filterCherryPickLabels (all : List String) (pfx : String) : List String :=
  if all = [] then []
  else
    let trimmedPfx := lowerS (trimSpaceS pfx)
    all.filter fun label =>
      ¬ (trimmedPfx ≠ "" ∧ startsWithS (lowerS (trimSpaceS label)) trimmedPfx)

/-- buildCreatePROptions: title, marker + original body, head/base branches,
filtered labels and verbatim assignees (orchestrator.go lines 438-463). -/
def buildCreatePROptions (cfg : Config) (pr : PRMetadata) (target : Target)
    (branchName : String) : CreatePROptions :=
  { title := "[" ++ target.branch ++ "] " ++ pr.title
    body :=
      buildMetadataComment pr target ++ "\n" ++
      "Cherry pick of #" ++ intDecS pr.number ++ " into `" ++ target.branch ++ "`.\n\n" ++
      (if pr.body ≠ "" then pr.body ++ "\n\n" else "") ++
      "--\n" ++ "Automated cherry-pick by rancher/cherry-pick-action."
    head := branchName
    base := target.branch
    draft := false
    labels := filterCherryPickLabels pr.labels cfg.labelPre
    assignees := pr.assignees
    maintainerCanModify := true }

/-- decoratePlaceholderBody prepends the conflict notice and the trimmed
cherry-pick error text to the PR body (orchestrator.go lines 423-436). -/
def decoratePlaceholderBody (original : String) (prNumber : Int) (branch : String)
    (cherryErr : String) : String :=
  let errMsg := trimSpaceS cherryErr
  "⚠️ Automated cherry-pick of #" ++ intDecS prNumber ++ " into `" ++ branch ++
    "` encountered conflicts.\n\n" ++
    "Please resolve the conflicts manually and update this pull request.\n\n" ++
    (if errMsg ≠ "" then "The git command reported:\n\n```\n" ++ errMsg ++ "\n```\n\n"
     else "") ++
    original

/-- The evaluation of a single target: the body of evaluateTargets' loop
(orchestrator.go lines 165-231), returning the per-target result (or the
run-aborting error) with the remote calls made. -/
def evaluateTarget1 (cfg : Config) (ghO : GhOracle) (sourceCommit : String) (t : Target) :
    Except String TargetResult × List Event :=
  let base : TargetResult :=
    { target := t, status := .pending, reason := "", existingPR := none, createdPR := none }
  let doneLabel := cfg.labelPre ++ "done/" ++ t.branch
  match ghO.hasLabel doneLabel with
  | .ok true =>
    (.ok { base with
        status := .skippedExistingPR
        reason := "already cherry-picked (found " ++ doneLabel ++ " label)" },
      [.hasLabel doneLabel])
  | _ =>
    -- a label-check failure is only logged; evaluation continues
    match ghO.ensureBranchExists t.branch with
    | .error .branchNotFound =>
      (.ok { base with
          status := .skippedNoBranch
          reason :=
            "target branch not found in repository; ensure the release branch exists or remove the label" },
        [.hasLabel doneLabel, .ensureBranch t.branch])
    | .error e =>
      (.error ("ensure branch " ++ t.branch ++ ": " ++ e.msg),
        [.hasLabel doneLabel, .ensureBranch t.branch])
    | .ok _ =>
      match ghO.listCherryPickPRs t.branch with
      | .error e =>
        (.error ("list cherry-pick prs for " ++ t.branch ++ ": " ++ e.msg),
          [.hasLabel doneLabel, .ensureBranch t.branch, .listPRs t.branch])
      | .ok existing =>
        if h : existing ≠ [] then
          (.ok { base with
              status := .skippedExistingPR
              reason := "cherry-pick PR already exists"
              existingPR := some (existing.head h) },
            [.hasLabel doneLabel, .ensureBranch t.branch, .listPRs t.branch])
        else
          match ghO.commitExistsOnBranch sourceCommit t.branch with
          | .error e =>
            (.error ("check commit on " ++ t.branch ++ ": " ++ e.msg),
              [.hasLabel doneLabel, .ensureBranch t.branch, .listPRs t.branch,
               .commitExists sourceCommit t.branch])
          | .ok true =>
            (.ok { base with
                status := .skippedAlreadyPresent
                reason := "commit already present on target" },
              [.hasLabel doneLabel, .ensureBranch t.branch, .listPRs t.branch,
               .commitExists sourceCommit t.branch])
          | .ok false =>
            (.ok base,
              [.hasLabel doneLabel, .ensureBranch t.branch, .listPRs t.branch,
               .commitExists sourceCommit t.branch])

/-- The evaluation loop over all targets; the first run-aborting error stops
the walk (the early `return` in evaluateTargets). -/
def evalLoop (cfg : Config) (ghO : GhOracle) (sourceCommit : String) :
    List Target → Except String (List TargetResult) × List Event
  | [] => (.ok [], [])
  | t :: rest =>
    match evaluateTarget1 cfg ghO sourceCommit t with
    | (.error e, ev) => (.error e, ev)
    | (.ok r, ev) =>
      match evalLoop cfg ghO sourceCommit rest with
      | (.error e, ev2) => (.error e, ev ++ ev2)
      | (.ok rs, ev2) => (.ok (r :: rs), ev ++ ev2)

/-- evaluateTargets: derive the source commit (merge SHA, falling back to the
head SHA) and evaluate each target in order (orchestrator.go lines 153-234). -/
def evaluateTargets (cfg : Config) (ghO : GhOracle) (pr : PRMetadata) (targets : List Target) :
    Except String (String × List TargetResult) × List Event :=
  let sourceCommit := if pr.mergeSHA = "" then pr.headSHA else pr.mergeSHA
  if sourceCommit = "" then (.error "source commit SHA could not be determined", [])
  else
    match evalLoop cfg ghO sourceCommit targets with
    | (.error e, ev) => (.error e, ev)
    | (.ok rs, ev) => (.ok (sourceCommit, rs), ev)

/-- hasPendingTargets (orchestrator.go lines 236-243). -/
def hasPendingTargets : List TargetResult → Bool
  | [] => false
  | r :: rest => if r.status = .pending then true else hasPendingTargets rest

/-- The dry-run flip applied to each planned target (orchestrator.go lines
134-141): pending targets become dry_run, everything else is untouched. -/
def dryRunFlip (r : TargetResult) : TargetResult :=
  if r.status = .pending then { r with status := .dryRun, reason := "dry run enabled" } else r

/-- finalizeCherryPickSuccess: push the branch, open the PR, mark succeeded
and best-effort add the done label (orchestrator.go lines 331-366). -/
def finalizeCherryPickSuccess (cfg : Config) (ghO : GhOracle) (ws : WsOracle)
    (pr : PRMetadata) (branchName : String) (target : TargetResult) :
    TargetResult × List Event :=
  match ws.pushBranch branchName with
  | .error e =>
    ({ target with
        status := .failed
        reason := "push cherry-pick branch " ++ branchName ++ ": " ++ e },
      [.push branchName])
  | .ok _ =>
    let prInput := buildCreatePROptions cfg pr target.target branchName
    match ghO.createPullRequest prInput with
    | .error e =>
      ({ target with status := .failed, reason := "create pull request: " ++ e.msg },
        [.push branchName, .createPR prInput])
    | .ok createdPR =>
      let doneLabel := cfg.labelPre ++ "done/" ++ target.target.branch
      -- the AddLabel outcome is only logged
      ({ target with
          status := .succeeded
          reason := "cherry-pick pull request created"
          createdPR := some createdPR },
        [.push branchName, .createPR prInput, .addLabel doneLabel])

/-- handlePlaceholderConflict: empty commit, push, decorated PR, placeholder
status, best-effort done label (orchestrator.go lines 378-421). -/
def handlePlaceholderConflict (cfg : Config) (ghO : GhOracle) (ws : WsOracle)
    (pr : PRMetadata) (branchName : String) (target : TargetResult) (cherryErr : String) :
    TargetResult × List Event :=
  let commitMessage :=
    "Placeholder cherry-pick for #" ++ intDecS pr.number ++ " into " ++ target.target.branch
  match ws.commitAllowEmpty commitMessage with
  | .error e =>
    ({ target with
        status := .failed
        reason := "placeholder commit failed after conflict (" ++ cherryErr ++ "): " ++ e },
      [.commitEmpty commitMessage])
  | .ok _ =>
    match ws.pushBranch branchName with
    | .error e =>
      ({ target with
          status := .failed
          reason := "push placeholder branch " ++ branchName ++ " failed after conflict (" ++
            cherryErr ++ "): " ++ e },
        [.commitEmpty commitMessage, .push branchName])
    | .ok _ =>
      let prInput0 := buildCreatePROptions cfg pr target.target branchName
      let prInput :=
        { prInput0 with
          body := decoratePlaceholderBody prInput0.body pr.number target.target.branch cherryErr }
      match ghO.createPullRequest prInput with
      | .error e =>
        ({ target with
            status := .failed
            reason := "create placeholder pull request failed (" ++ cherryErr ++ "): " ++ e.msg },
          [.commitEmpty commitMessage, .push branchName, .createPR prInput])
      | .ok createdPR =>
        let doneLabel := cfg.labelPre ++ "done/" ++ target.target.branch
        -- the AddLabel outcome is only logged
        ({ target with
            status := .placeholderPR
            reason := "cherry-pick conflict: placeholder PR opened (" ++ cherryErr ++ ")"
            createdPR := some createdPR },
          [.commitEmpty commitMessage, .push branchName, .createPR prInput,
           .addLabel doneLabel])

/-- handleCherryPickError: branch on the conflict strategy (orchestrator.go
lines 368-376). -/
def handleCherryPickError (cfg : Config) (ghO : GhOracle) (ws : WsOracle)
    (pr : PRMetadata) (branchName sourceCommit : String) (target : TargetResult)
    (cherryErr : String) : TargetResult × List Event :=
  if cfg.conflictStrategy = "placeholder-pr" then
    handlePlaceholderConflict cfg ghO ws pr branchName target cherryErr
  else
    ({ target with
        status := .failed
        reason := "cherry-pick commit " ++ sourceCommit ++ ": " ++ cherryErr },
      [])

/-- executeTarget: prepare a workspace, branch, cherry-pick and finish; the
deferred workspace cleanup runs on every exit path after a successful
Prepare (orchestrator.go lines 287-329). -/
def executeTarget (cfg : Config) (ghO : GhOracle) (prep : Except String WsOracle)
    (pr : PRMetadata) (sourceCommit : String) (target : TargetResult) :
    TargetResult × List Event :=
  let branchName := BranchNameForCherryPick target.target.branch pr.number
  match prep with
  | .error e =>
    ({ target with status := .failed, reason := "prepare workspace: " ++ e }, [.prepare])
  | .ok ws =>
    match ws.checkoutBranch target.target.branch with
    | .error e =>
      ({ target with
          status := .failed
          reason := "checkout target branch " ++ target.target.branch ++ ": " ++ e },
        [.prepare, .checkout target.target.branch, .cleanup])
    | .ok _ =>
      match ws.createBranchFrom branchName target.target.branch with
      | .error e =>
        ({ target with
            status := .failed
            reason := "create branch " ++ branchName ++ ": " ++ e },
          [.prepare, .checkout target.target.branch,
           .createBranch branchName target.target.branch, .cleanup])
      | .ok _ =>
        match ws.checkoutBranch branchName with
        | .error e =>
          ({ target with
              status := .failed
              reason := "checkout cherry-pick branch " ++ branchName ++ ": " ++ e },
            [.prepare, .checkout target.target.branch,
             .createBranch branchName target.target.branch, .checkout branchName, .cleanup])
        | .ok _ =>
          match ws.cherryPick sourceCommit with
          | .error cherryErr =>
            -- the cherry-pick abort outcome is only logged
            let (res, ev) :=
              handleCherryPickError cfg ghO ws pr branchName sourceCommit target cherryErr
            (res,
              [.prepare, .checkout target.target.branch,
               .createBranch branchName target.target.branch, .checkout branchName,
               .cherryPick sourceCommit, .abortCP] ++ ev ++ [.cleanup])
          | .ok _ =>
            let (res, ev) := finalizeCherryPickSuccess cfg ghO ws pr branchName target
            (res,
              [.prepare, .checkout target.target.branch,
               .createBranch branchName target.target.branch, .checkout branchName,
               .cherryPick sourceCommit] ++ ev ++ [.cleanup])

/-- executePendingTargets: run every still-pending target in order, each with
its own freshly prepared workspace (the Nat argument counts the Prepare calls
made so far); non-pending targets pass through unchanged (orchestrator.go
lines 245-256). -/
def executePendingTargets (cfg : Config) (ghO : GhOracle) (gitF : GitOracle)
    (pr : PRMetadata) (sourceCommit : String) :
    Nat → List TargetResult → List TargetResult × List Event
  | _, [] => ([], [])
  | k, r :: rest =>
    if r.status = .pending then
      let (r2, ev) := executeTarget cfg ghO (gitF k) pr sourceCommit r
      let (rs, ev2) := executePendingTargets cfg ghO gitF pr sourceCommit (k + 1) rest
      (r2 :: rs, ev ++ ev2)
    else
      let (rs, ev2) := executePendingTargets cfg ghO gitF pr sourceCommit k rest
      (r :: rs, ev2)

/-- applyManualTargets merges operator-specified target branches into the
label-derived ones (orchestrator.go lines 258-285). -/
def applyManualTargets (cfg : Config) (labelTargets : List Target) : List Target :=
  if cfg.targetBranches = [] then labelTargets
  else
    let manual := cfg.targetBranches.filterMap fun branch =>
      let trimmed := trimSpaceS branch
      if trimmed = "" then none
      else
        let normalized := NormalizeBranch trimmed
        if normalized = "" then none
        else some { labelName := "input:" ++ trimmed, branch := normalized }
    if manual = [] then labelTargets
    else MergeTargets [labelTargets, manual]

/-- ProcessPullRequest: the one-pull-request orchestration pipeline
(orchestrator.go lines 65-151), over the collaborator oracles, producing the
run outcome and the full trace of collaborator calls. -/
def processPullRequest (cfg : Config) (ghO : GhOracle) (gitEx : Option GitOracle) :
    Except String RunResult × List Event :=
  match ghO.getPR 0 with
  | .error e => (.error ("get pull request: " ++ e.msg), [.getPR])
  | .ok pr =>
    if pr.isMerged = false then
      (.ok { skipped := true, skippedReason := "not merged", targets := [] }, [.getPR])
    else if pr.isFromFork then
      (.ok {
          skipped := true
          skippedReason :=
            "pull request originates from a fork; create a branch in the base repository before labeling"
          targets := [] }, [.getPR])
    else
      match CollectTargets pr.labels cfg.labelPre with
      | .error e => (.error ("collect targets: " ++ e), [.getPR])
      | .ok ts0 =>
        let targets0 := applyManualTargets cfg ts0
        if targets0 = [] then
          (.ok { skipped := true, skippedReason := "no targets", targets := [] }, [.getPR])
        else
          match ghO.getPR 1 with
          | .error e => (.error ("refresh pull request: " ++ e.msg), [.getPR, .getPR])
          | .ok pr2 =>
            match CollectTargets pr2.labels cfg.labelPre with
            | .error e => (.error ("collect targets after refresh: " ++ e), [.getPR, .getPR])
            | .ok ts1 =>
              let targets := applyManualTargets cfg ts1
              if targets = [] then
                (.ok { skipped := true, skippedReason := "no targets", targets := [] },
                  [.getPR, .getPR])
              else
                match ValidateTargets targets with
                | .error e => (.error ("validate targets: " ++ e), [.getPR, .getPR])
                | .ok _ =>
                  match evaluateTargets cfg ghO pr2 targets with
                  | (.error e, ev) => (.error e, [.getPR, .getPR] ++ ev)
                  | (.ok (sourceCommit, plan), ev) =>
                    if hasPendingTargets plan = false then
                      (.ok { skipped := false, skippedReason := "", targets := plan },
                        [.getPR, .getPR] ++ ev)
                    else if cfg.dryRun then
                      (.ok {
                          skipped := false
                          skippedReason := ""
                          targets := plan.map dryRunFlip },
                        [.getPR, .getPR] ++ ev)
                    else
                      match gitEx with
                      | none => (.error "git executor is required", [.getPR, .getPR] ++ ev)
                      | some gitF =>
                        let (plan2, ev2) :=
                          executePendingTargets cfg ghO gitF pr2 sourceCommit 0 plan
                        (.ok { skipped := false, skippedReason := "", targets := plan2 },
                          [.getPR, .getPR] ++ ev ++ ev2)

/-- Number of pending entries among the first `i` planned targets: the
ordinal of the workspace the i-th pending target gets. -/
def countPendingBefore (plan : List TargetResult) (i : Nat) : Nat :=
  ((plan.take i).filter fun r => r.status = .pending).length

/-! ## Concrete fixtures used by witnesses and counterexamples -/

/-- A minimal configuration with the fail conflict strategy. -/
def cfgFail : Config where
  labelPre := "cp/"
  conflictStrategy := "fail"
  dryRun := false
  targetBranches := []

/-- The same configuration with the placeholder-pr conflict strategy. -/
def cfgPlaceholder : Config := { cfgFail with conflictStrategy := "placeholder-pr" }

/-- The same configuration with dry-run enabled. -/
def cfgDry : Config := { cfgFail with dryRun := true }

/-- A merged, non-fork pull request labelled for branch b1. -/
def prOne : PRMetadata where
  owner := "o"
  repo := "r"
  number := 7
  title := "Fix bug"
  body := "body"
  mergeSHA := "abc"
  headSHA := ""
  labels := ["cp/b1"]
  assignees := ["alice"]
  isMerged := true
  isFromFork := false

/-- The same pull request labelled for branches b1 and b2. -/
def prTwo : PRMetadata := { prOne with labels := ["cp/b1", "cp/b2"] }

/-- The same pull request with no usable source commit SHA. -/
def prNoSHA : PRMetadata := { prOne with mergeSHA := "", headSHA := "" }

/-- A remote oracle whose answers leave every target pending. -/
def ghAllClear : GhOracle where
  getPR := fun _ => .ok prOne
  hasLabel := fun _ => .ok false
  ensureBranchExists := fun _ => .ok ()
  listCherryPickPRs := fun _ => .ok []
  commitExistsOnBranch := fun _ _ => .ok false
  createPullRequest := fun _ =>
    .ok { url := "u", number := 77, head := "h", base := "b" }
  addLabel := fun _ => .ok ()

/-- ghAllClear reporting the two-target pull request. -/
def ghTwoClear : GhOracle := { ghAllClear with getPR := fun _ => .ok prTwo }

/-- ghTwoClear, except that listing cherry-pick PRs for branch b1 fails. -/
def ghListBoom : GhOracle :=
  { ghTwoClear with
    listCherryPickPRs := fun b => if b = "b1" then .error (.other "boom") else .ok [] }

/-- ghAllClear reporting the pull request without a source commit SHA. -/
def ghNoSHA : GhOracle := { ghAllClear with getPR := fun _ => .ok prNoSHA }

/-- A workspace oracle on which every operation succeeds. -/
def wsClean : WsOracle where
  checkoutBranch := fun _ => .ok ()
  createBranchFrom := fun _ _ => .ok ()
  cherryPick := fun _ => .ok ()
  abortCherryPick := .ok ()
  commitAllowEmpty := fun _ => .ok ()
  pushBranch := fun _ => .ok ()
  cleanup := .ok ()

/-- wsClean, except that the cherry-pick itself conflicts. -/
def wsConflict : WsOracle := { wsClean with cherryPick := fun _ => .error "conflict hunk" }

/-- A git executor always handing out wsConflict workspaces. -/
def gitConflict : GitOracle := fun _ => .ok wsConflict

/-- A pending target result for branch b1. -/
def trPend : TargetResult where
  target := { labelName := "cp/b1", branch := "b1" }
  status := .pending
  reason := ""
  existingPR := none
  createdPR := none

/-- The PR reference ghAllClear returns on creation. -/
def prRef : CherryPickPR where
  url := "u"
  number := 77
  head := "h"
  base := "b"

/-! ## Theorems -/

/-- Helper: attempts performed by the runGit loop are bounded by `retries` and
only happen while every earlier attempt failed with a plain git error and no
cancellation interrupted the backoff sleeps. -/
theorem runGitLoop_attempt_mem (oracle : RunOracle) (isNet : Bool) (retries : Nat) :
    ∀ fuel attempt delay m, attempt ≤ retries →
      REvent.attempt m ∈ (runGitLoop oracle isNet retries fuel attempt delay).2 →
      attempt ≤ m ∧ m ≤ retries ∧
        ∀ i, attempt ≤ i → i < m →
          (∃ s, oracle.attemptOut i = .gitErr s) ∧ oracle.cancelDuringSleep i = false := by
  intro fuel
  induction fuel with
  | zero =>
    intro attempt delay m _ hmem
    simp [runGitLoop] at hmem
  | succ fuel ih =>
    intro attempt delay m hstart hmem
    simp only [runGitLoop] at hmem
    rcases hout : oracle.attemptOut attempt with _ | s | _
    · rw [hout] at hmem
      simp at hmem
      exact ⟨by omega, by omega, fun i h1 h2 => absurd h2 (by omega)⟩
    · rw [hout] at hmem
      by_cases hnet : isNet
      · subst hnet
        simp only [not_true, if_neg, if_false] at hmem
        have hne : (AttemptOut.gitErr s = AttemptOut.ctxErr) = False := by simp
        by_cases hlast : attempt = retries
        · simp [hlast, hne] at hmem
          exact ⟨by omega, by omega, fun i h1 h2 => absurd h2 (by omega)⟩
        · by_cases hcancel : oracle.cancelDuringSleep attempt = true
          · simp [hlast, hne, hcancel] at hmem
            exact ⟨by omega, by omega, fun i h1 h2 => absurd h2 (by omega)⟩
          · simp only [Bool.not_eq_true] at hcancel
            simp [hlast, hne, hcancel] at hmem
            rcases hmem with hmem | hmem
            · exact ⟨by omega, by omega, fun i h1 h2 => absurd h2 (by omega)⟩
            · have hstart2 : attempt + 1 ≤ retries := by omega
              obtain ⟨ha, hb, hc⟩ := ih (attempt + 1) _ m hstart2 hmem
              refine ⟨by omega, hb, ?f⟩
              intro i h1 h2
              rcases Nat.eq_or_lt_of_le h1 with hi | hi
              · exact hi ▸ ⟨⟨s, hout⟩, hcancel⟩
              · exact hc i hi h2
      · simp only [Bool.not_eq_true] at hnet
        simp [hnet] at hmem
        exact ⟨by omega, by omega, fun i h1 h2 => absurd h2 (by omega)⟩
    · rw [hout] at hmem
      by_cases hnet : isNet
      · simp [hnet] at hmem
        exact ⟨by omega, by omega, fun i h1 h2 => absurd h2 (by omega)⟩
      · simp only [Bool.not_eq_true] at hnet
        simp [hnet] at hmem
        exact ⟨by omega, by omega, fun i h1 h2 => absurd h2 (by omega)⟩

/-- Claim C8: in the workspace executor's git runner, network-class commands
are retried with exponential backoff (by default 2 additional attempts, one
second initial delay doubling each attempt), no further attempt is made once
the governing context is canceled or past its deadline, and non-network
commands are executed exactly once and never retried. -/
theorem c8_runGit_retry_policy (oracle : RunOracle) (args : List String) :
    (isNetworkCommand (primaryGitCommand args) = false →
       (runGit defaultRunConfig oracle args).2 = [.attempt 0]) ∧
    (isNetworkCommand (primaryGitCommand args) = true →
      ((∀ k, ∃ s, oracle.attemptOut k = .gitErr s) →
       (∀ k, oracle.cancelDuringSleep k = false) →
        (runGit defaultRunConfig oracle args).2 =
          [.attempt 0, .sleep goSecond, .attempt 1, .sleep (2 * goSecond), .attempt 2]) ∧
      (∀ m, REvent.attempt m ∈ (runGit defaultRunConfig oracle args).2 →
        m ≤ 2 ∧ ∀ i, i < m →
          (∃ s, oracle.attemptOut i = .gitErr s) ∧ oracle.cancelDuringSleep i = false)) := by
  refine ⟨?nonNet, fun hnet => ⟨?backoff, ?noMore⟩⟩
  case nonNet =>
    intro hnet
    simp only [runGit, hnet, Bool.false_eq_true, if_false, runGitLoop]
    rcases hout : oracle.attemptOut 0 with _ | s | _ <;> simp [hout]
  case backoff =>
    intro hall hcancel
    obtain ⟨s0, h0⟩ := hall 0
    obtain ⟨s1, h1⟩ := hall 1
    obtain ⟨s2, h2⟩ := hall 2
    have hr : networkRetriesValue defaultRunConfig = 2 := by decide
    have hd : networkRetryDelayValue defaultRunConfig = goSecond := by decide
    simp only [runGit, hnet, if_pos, hr, hd, runGitLoop, h0, h1, h2, hcancel 0, hcancel 1]
    norm_num [goSecond]
    simp
  case noMore =>
    intro m hmem
    have hr : networkRetriesValue defaultRunConfig = 2 := by decide
    simp only [runGit, hnet, if_pos, hr] at hmem
    obtain ⟨_, hb, hc⟩ :=
      runGitLoop_attempt_mem oracle true 2 3 0 (networkRetryDelayValue defaultRunConfig) m
        (by omega) hmem
    exact ⟨hb, fun i hi => hc i (Nat.zero_le i) hi⟩

/-- Witness for C8 at a concrete failing oracle and a push command. -/
theorem c8_runGit_retry_policy_witness :
    (isNetworkCommand (primaryGitCommand ["-C", "/w", "push", "origin", "b:b"]) = true →
      ((∀ k, ∃ s,
          ({ attemptOut := fun _ => .gitErr "refused", cancelDuringSleep := fun _ => false } :
            RunOracle).attemptOut k = .gitErr s) →
       (∀ k,
          ({ attemptOut := fun _ => .gitErr "refused", cancelDuringSleep := fun _ => false } :
            RunOracle).cancelDuringSleep k = false) →
        (runGit defaultRunConfig
            { attemptOut := fun _ => .gitErr "refused", cancelDuringSleep := fun _ => false }
            ["-C", "/w", "push", "origin", "b:b"]).2 =
          [.attempt 0, .sleep goSecond, .attempt 1, .sleep (2 * goSecond), .attempt 2]) ∧
      (∀ m, REvent.attempt m ∈
          (runGit defaultRunConfig
            { attemptOut := fun _ => .gitErr "refused", cancelDuringSleep := fun _ => false }
            ["-C", "/w", "push", "origin", "b:b"]).2 →
        m ≤ 2 ∧ ∀ i, i < m →
          (∃ s,
            ({ attemptOut := fun _ => .gitErr "refused", cancelDuringSleep := fun _ => false } :
              RunOracle).attemptOut i = .gitErr s) ∧
          ({ attemptOut := fun _ => .gitErr "refused", cancelDuringSleep := fun _ => false } :
            RunOracle).cancelDuringSleep i = false)) :=
  (c8_runGit_retry_policy
    { attemptOut := fun _ => .gitErr "refused", cancelDuringSleep := fun _ => false }
    ["-C", "/w", "push", "origin", "b:b"]).2

/-- Claim C4: the workspace executor determines, before picking, whether the
commit is a merge commit (more than one parent, i.e. more than two fields of
the rev-list parents probe); merge commits are cherry-picked with mainline
parent 1 (-m 1) and non-merge commits without any mainline argument. -/
theorem c4_merge_commit_mainline (oracle : RevListOracle)
    (execOut : List String → Except String Unit) (commit out : String)
    (h : oracle.revListOut commit = .ok out) :
    ((goFields (trimSpaceL out.data)).length > 2 →
      (shellCherryPick oracle execOut commit).2 = [["cherry-pick", "-m", "1", commit]]) ∧
    (¬ (goFields (trimSpaceL out.data)).length > 2 →
      (shellCherryPick oracle execOut commit).2 = [["cherry-pick", commit]]) := by
  constructor
  · intro hf
    simp only [shellCherryPick, isMergeCommit, h, decide_eq_true hf]
    rcases hex : execOut ["cherry-pick", "-m", "1", commit] with e | u <;> simp [hex]
  · intro hf
    simp only [shellCherryPick, isMergeCommit, h, decide_eq_false hf]
    rcases hex : execOut ["cherry-pick", commit] with e | u <;> simp [hex]

/-- Witness for C4: a two-parent commit is picked with -m 1, a one-parent
commit without a mainline argument. -/
theorem c4_merge_commit_mainline_witness :
    ((goFields (trimSpaceL ("c0 p1 p2\n" : String).data)).length > 2 →
      (shellCherryPick { revListOut := fun _ => .ok "c0 p1 p2\n" } (fun _ => .ok ()) "c0").2 =
        [["cherry-pick", "-m", "1", "c0"]]) ∧
    (¬ (goFields (trimSpaceL ("c0 p1 p2\n" : String).data)).length > 2 →
      (shellCherryPick { revListOut := fun _ => .ok "c0 p1 p2\n" } (fun _ => .ok ()) "c0").2 =
        [["cherry-pick", "c0"]]) :=
  c4_merge_commit_mainline { revListOut := fun _ => .ok "c0 p1 p2\n" } (fun _ => .ok ())
    "c0" "c0 p1 p2\n" rfl

/-- Helper: the per-target evaluation cascade.  When evaluating one target
succeeds (does not abort the run), the result's status is the first
applicable of: done label present, branch missing, existing cherry-pick PR,
commit already present, otherwise pending. -/
theorem evaluateTarget1_cascade (cfg : Config) (ghO : GhOracle) (sc : String) (t : Target)
    (r : TargetResult) (h : (evaluateTarget1 cfg ghO sc t).1 = .ok r) :
    r.target = t ∧
    (ghO.hasLabel (cfg.labelPre ++ "done/" ++ t.branch) = .ok true →
      r.status = .skippedExistingPR) ∧
    (ghO.hasLabel (cfg.labelPre ++ "done/" ++ t.branch) ≠ .ok true →
      ghO.ensureBranchExists t.branch = .error .branchNotFound →
      r.status = .skippedNoBranch) ∧
    (ghO.hasLabel (cfg.labelPre ++ "done/" ++ t.branch) ≠ .ok true →
      ghO.ensureBranchExists t.branch = .ok () →
      ∀ ex, ghO.listCherryPickPRs t.branch = .ok ex → ex ≠ [] →
        r.status = .skippedExistingPR ∧ r.existingPR = ex.head?) ∧
    (ghO.hasLabel (cfg.labelPre ++ "done/" ++ t.branch) ≠ .ok true →
      ghO.ensureBranchExists t.branch = .ok () →
      ghO.listCherryPickPRs t.branch = .ok [] →
      ghO.commitExistsOnBranch sc t.branch = .ok true →
      r.status = .skippedAlreadyPresent) ∧
    (ghO.hasLabel (cfg.labelPre ++ "done/" ++ t.branch) ≠ .ok true →
      ghO.ensureBranchExists t.branch = .ok () →
      ghO.listCherryPickPRs t.branch = .ok [] →
      ghO.commitExistsOnBranch sc t.branch = .ok false →
      r.status = .pending) := by
  rcases hL : ghO.hasLabel (cfg.labelPre ++ "done/" ++ t.branch) with eL | bL
  case ok =>
    rcases bL with _ | _
    case true =>
      simp only [evaluateTarget1, hL] at h
      simp at h
      subst h
      simp [hL]
    case false =>
      rcases hB : ghO.ensureBranchExists t.branch with eB | uB
      case error =>
        rcases eB with _ | m
        case branchNotFound =>
          simp only [evaluateTarget1, hL, hB] at h
          simp at h
          subst h
          simp [hL, hB]
        case other =>
          simp only [evaluateTarget1, hL, hB] at h
          exact absurd h (by simp)
      case ok =>
        rcases hP : ghO.listCherryPickPRs t.branch with eP | ex0
        case error =>
          simp only [evaluateTarget1, hL, hB, hP] at h
          exact absurd h (by simp)
        case ok =>
          rcases ex0 with _ | ⟨x, xs⟩
          case nil =>
            rcases hC : ghO.commitExistsOnBranch sc t.branch with eC | bC
            case error =>
              simp only [evaluateTarget1, hL, hB, hP, hC] at h
              simp at h
            case ok =>
              rcases bC with _ | _
              case false =>
                simp only [evaluateTarget1, hL, hB, hP, hC] at h
                simp at h
                subst h
                simp [hL, hB, hP, hC]
              case true =>
                simp only [evaluateTarget1, hL, hB, hP, hC] at h
                simp at h
                subst h
                simp [hL, hB, hP, hC]
          case cons =>
            simp only [evaluateTarget1, hL, hB, hP] at h
            simp at h
            subst h
            simp [hL, hB, hP]
  case error =>
    rcases hB : ghO.ensureBranchExists t.branch with eB | uB
    case error =>
      rcases eB with _ | m
      case branchNotFound =>
        simp only [evaluateTarget1, hL, hB] at h
        simp at h
        subst h
        simp [hL, hB]
      case other =>
        simp only [evaluateTarget1, hL, hB] at h
        exact absurd h (by simp)
    case ok =>
      rcases hP : ghO.listCherryPickPRs t.branch with eP | ex0
      case error =>
        simp only [evaluateTarget1, hL, hB, hP] at h
        exact absurd h (by simp)
      case ok =>
        rcases ex0 with _ | ⟨x, xs⟩
        case nil =>
          rcases hC : ghO.commitExistsOnBranch sc t.branch with eC | bC
          case error =>
            simp only [evaluateTarget1, hL, hB, hP, hC] at h
            simp at h
          case ok =>
            rcases bC with _ | _
            case false =>
              simp only [evaluateTarget1, hL, hB, hP, hC] at h
              simp at h
              subst h
              simp [hL, hB, hP, hC]
            case true =>
              simp only [evaluateTarget1, hL, hB, hP, hC] at h
              simp at h
              subst h
              simp [hL, hB, hP, hC]
        case cons =>
          simp only [evaluateTarget1, hL, hB, hP] at h
          simp at h
          subst h
          simp [hL, hB, hP]

/-- Helper: a successful evaluation walk returns one result per target, the
i-th being exactly the evaluation of the i-th target. -/
theorem evalLoop_ok (cfg : Config) (ghO : GhOracle) (sc : String) :
    ∀ (ts : List Target) (rs : List TargetResult), (evalLoop cfg ghO sc ts).1 = .ok rs →
      rs.length = ts.length ∧
      ∀ i (h1 : i < ts.length) (h2 : i < rs.length),
        (evaluateTarget1 cfg ghO sc (ts.get ⟨i, h1⟩)).1 = .ok (rs.get ⟨i, h2⟩) := by
  intro ts
  induction ts with
  | nil =>
    intro rs h
    simp only [evalLoop] at h
    simp at h
    subst h
    exact ⟨rfl, fun i h1 _ => absurd h1 (by simp)⟩
  | cons t rest ih =>
    intro rs h
    rcases hE : evaluateTarget1 cfg ghO sc t with ⟨res, ev⟩
    rcases res with e | r
    · simp only [evalLoop, hE] at h
      exact absurd h (by simp)
    · rcases hR : evalLoop cfg ghO sc rest with ⟨res2, ev2⟩
      rcases res2 with e2 | rs2
      · simp only [evalLoop, hE, hR] at h
        exact absurd h (by simp)
      · simp only [evalLoop, hE, hR] at h
        simp at h
        subst h
        have hrest : (evalLoop cfg ghO sc rest).1 = .ok rs2 := by rw [hR]
        obtain ⟨hlen, hpt⟩ := ih rs2 hrest
        refine ⟨by simp [hlen], ?pt⟩
        intro i h1 h2
        match i with
        | 0 =>
          simp only [List.get]
          rw [hE]
        | j + 1 =>
          simp only [List.get]
          exact hpt j (by simpa using h1) (by simpa using h2)

/-- Claim C1: for every list of targets and every sequence of collaborator
answers, evaluation assigns each target the first applicable status in the
fixed order done-label / missing-branch / existing-PR (recording the existing
PR) / commit-present / pending, short-circuiting; the source commit is the
merge SHA, falling back to the head SHA. -/
theorem c1_evaluation_order (cfg : Config) (ghO : GhOracle) (pr : PRMetadata)
    (targets : List Target) (sha : String) (results : List TargetResult)
    (h : (evaluateTargets cfg ghO pr targets).1 = .ok (sha, results)) :
    sha = (if pr.mergeSHA = "" then pr.headSHA else pr.mergeSHA) ∧
    results.length = targets.length ∧
    ∀ i (h1 : i < targets.length) (h2 : i < results.length),
      let t := targets.get ⟨i, h1⟩
      let r := results.get ⟨i, h2⟩
      r.target = t ∧
      (ghO.hasLabel (cfg.labelPre ++ "done/" ++ t.branch) = .ok true →
        r.status = .skippedExistingPR) ∧
      (ghO.hasLabel (cfg.labelPre ++ "done/" ++ t.branch) ≠ .ok true →
        ghO.ensureBranchExists t.branch = .error .branchNotFound →
        r.status = .skippedNoBranch) ∧
      (ghO.hasLabel (cfg.labelPre ++ "done/" ++ t.branch) ≠ .ok true →
        ghO.ensureBranchExists t.branch = .ok () →
        ∀ ex, ghO.listCherryPickPRs t.branch = .ok ex → ex ≠ [] →
          r.status = .skippedExistingPR ∧ r.existingPR = ex.head?) ∧
      (ghO.hasLabel (cfg.labelPre ++ "done/" ++ t.branch) ≠ .ok true →
        ghO.ensureBranchExists t.branch = .ok () →
        ghO.listCherryPickPRs t.branch = .ok [] →
        ghO.commitExistsOnBranch sha t.branch = .ok true →
        r.status = .skippedAlreadyPresent) ∧
      (ghO.hasLabel (cfg.labelPre ++ "done/" ++ t.branch) ≠ .ok true →
        ghO.ensureBranchExists t.branch = .ok () →
        ghO.listCherryPickPRs t.branch = .ok [] →
        ghO.commitExistsOnBranch sha t.branch = .ok false →
        r.status = .pending) := by
  have hsc : sha = (if pr.mergeSHA = "" then pr.headSHA else pr.mergeSHA) ∧
      (evalLoop cfg ghO (if pr.mergeSHA = "" then pr.headSHA else pr.mergeSHA) targets).1 =
        .ok results := by
    by_cases hz : (if pr.mergeSHA = "" then pr.headSHA else pr.mergeSHA) = ""
    · simp only [evaluateTargets, hz] at h
      simp [hz] at h
    · rcases hEL : evalLoop cfg ghO (if pr.mergeSHA = "" then pr.headSHA else pr.mergeSHA)
          targets with ⟨res, ev⟩
      rcases res with e | rs
      · simp only [evaluateTargets, hz, if_neg hz, hEL] at h
        simp at h
      · simp only [evaluateTargets, hz, if_neg hz, hEL] at h
        simp at h
        exact ⟨h.1.symm, by rw [h.2]⟩
  obtain ⟨hsha, hloop⟩ := hsc
  subst hsha
  obtain ⟨hlen, hpt⟩ := evalLoop_ok cfg ghO _ targets results hloop
  refine ⟨rfl, hlen, ?pt⟩
  intro i h1 h2
  exact evaluateTarget1_cascade cfg ghO _ _ _ (hpt i h1 h2)

/-- Witness for C1 at a one-target run whose collaborator answers leave the
target pending. -/
theorem c1_evaluation_order_witness :
    (evaluateTargets cfgFail ghAllClear prOne [{ labelName := "cp/b1", branch := "b1" }]).1 =
      .ok ("abc",
        [{ target := { labelName := "cp/b1", branch := "b1" }, status := .pending,
           reason := "", existingPR := none, createdPR := none }]) ∧
    ("abc" : String) =
      (if prOne.mergeSHA = "" then prOne.headSHA else prOne.mergeSHA) := by
  have h := c1_evaluation_order cfgFail ghAllClear prOne
    [{ labelName := "cp/b1", branch := "b1" }] "abc"
    [{ target := { labelName := "cp/b1", branch := "b1" }, status := .pending,
       reason := "", existingPR := none, createdPR := none }] (by rfl)
  exact ⟨by rfl, h.1⟩

/-- Claim C2: when the cherry-pick of the source commit fails, conflict
strategy "fail" yields status failed with no pull request created, while
"placeholder-pr" yields exactly one empty commit, one push of the cherry-pick
branch and one pull request whose body is the conflict-decorated body
(containing the original cherry-pick error text), with final status
placeholder_pr. -/
theorem c2_conflict_strategies (cfg : Config) (ghO : GhOracle) (ws : WsOracle)
    (pr : PRMetadata) (sc : String) (target : TargetResult) (e : String)
    (created : CherryPickPR)
    (hco : ∀ b, ws.checkoutBranch b = .ok ())
    (hcb : ∀ b f, ws.createBranchFrom b f = .ok ())
    (hcp : ws.cherryPick sc = .error e) :
    (cfg.conflictStrategy = "fail" →
      (executeTarget cfg ghO (.ok ws) pr sc target).1.status = .failed ∧
      countCreatePR (executeTarget cfg ghO (.ok ws) pr sc target).2 = 0 ∧
      countPush (executeTarget cfg ghO (.ok ws) pr sc target).2 = 0 ∧
      countCommitEmpty (executeTarget cfg ghO (.ok ws) pr sc target).2 = 0) ∧
    (cfg.conflictStrategy = "placeholder-pr" →
      (∀ m, ws.commitAllowEmpty m = .ok ()) →
      (∀ b, ws.pushBranch b = .ok ()) →
      (∀ o, ghO.createPullRequest o = .ok created) →
      (executeTarget cfg ghO (.ok ws) pr sc target).1.status = .placeholderPR ∧
      (executeTarget cfg ghO (.ok ws) pr sc target).1.createdPR = some created ∧
      countCommitEmpty (executeTarget cfg ghO (.ok ws) pr sc target).2 = 1 ∧
      countPush (executeTarget cfg ghO (.ok ws) pr sc target).2 = 1 ∧
      countCreatePR (executeTarget cfg ghO (.ok ws) pr sc target).2 = 1 ∧
      Event.push (BranchNameForCherryPick target.target.branch pr.number) ∈
        (executeTarget cfg ghO (.ok ws) pr sc target).2 ∧
      ∃ opts, Event.createPR opts ∈ (executeTarget cfg ghO (.ok ws) pr sc target).2 ∧
        opts.body =
          decoratePlaceholderBody
            (buildCreatePROptions cfg pr target.target
              (BranchNameForCherryPick target.target.branch pr.number)).body
            pr.number target.target.branch e ∧
        (trimSpaceS e ≠ "" →
          ∃ p q, opts.body.data = p ++ (trimSpaceS e).data ++ q)) := by
  constructor
  · intro hs
    have hns : (cfg.conflictStrategy = "placeholder-pr") = False := by
      simp [hs]
    simp [executeTarget, hco, hcb, hcp, handleCherryPickError, hns,
      countCreatePR, countPush, countCommitEmpty]
  · intro hs hce hpb hcr
    have hps : (cfg.conflictStrategy = "placeholder-pr") = True := by
      simp [hs]
    simp only [executeTarget, hco, hcb, hcp, handleCherryPickError, hps, if_true,
      handlePlaceholderConflict, hce, hpb, hcr, eq_self_iff_true]
    refine ⟨by trivial, by trivial, by simp [countCommitEmpty], by simp [countPush],
      by simp [countCreatePR], by simp, ?opts⟩
    refine ⟨{ buildCreatePROptions cfg pr target.target
        (BranchNameForCherryPick target.target.branch pr.number) with
        body := decoratePlaceholderBody
          (buildCreatePROptions cfg pr target.target
            (BranchNameForCherryPick target.target.branch pr.number)).body
          pr.number target.target.branch e }, by simp, rfl, ?dec⟩
    intro hne
    simp only [decoratePlaceholderBody]
    refine ⟨("⚠️ Automated cherry-pick of #" ++ intDecS pr.number ++ " into `" ++
        target.target.branch ++ "` encountered conflicts.\n\n" ++
        "Please resolve the conflicts manually and update this pull request.\n\n" ++
        "The git command reported:\n\n```\n").data,
      ("\n```\n\n" ++
        (buildCreatePROptions cfg pr target.target
          (BranchNameForCherryPick target.target.branch pr.number)).body).data, ?eq⟩
    simp [hne]

/-- Witness for C2: with the placeholder-pr strategy a conflicting pick ends
placeholder_pr with exactly one PR created; with the fail strategy it ends
failed with none. -/
theorem c2_conflict_strategies_witness :
    (executeTarget cfgPlaceholder ghAllClear (.ok wsConflict) prOne "abc" trPend).1.status =
      .placeholderPR ∧
    countCreatePR (executeTarget cfgPlaceholder ghAllClear (.ok wsConflict) prOne "abc"
      trPend).2 = 1 ∧
    (executeTarget cfgFail ghAllClear (.ok wsConflict) prOne "abc" trPend).1.status =
      .failed ∧
    countCreatePR (executeTarget cfgFail ghAllClear (.ok wsConflict) prOne "abc"
      trPend).2 = 0 := by
  have h1 := c2_conflict_strategies cfgPlaceholder ghAllClear wsConflict prOne "abc" trPend
    "conflict hunk" prRef (fun _ => rfl) (fun _ _ => rfl) rfl
  have h2 := c2_conflict_strategies cfgFail ghAllClear wsConflict prOne "abc" trPend
    "conflict hunk" prRef (fun _ => rfl) (fun _ _ => rfl) rfl
  obtain ⟨hs, _, _, _, hcpr, _⟩ := h1.2 rfl (fun _ => rfl) (fun _ => rfl) (fun _ => rfl)
  obtain ⟨hf, hf0, _⟩ := h2.1 rfl
  exact ⟨hs, hcpr, hf, hf0⟩

/-- Claim C10: when both the merge commit SHA and the head SHA are empty,
ProcessPullRequest fails with the source-commit error before any target is
evaluated or executed: the only collaborator calls made are the two metadata
fetches, and no TargetResult is produced (the run returns an error, not a
Result). -/
theorem c10_missing_source_sha (cfg : Config) (ghO : GhOracle) (gitEx : Option GitOracle)
    (pr : PRMetadata) (ts0 : List Target)
    (h1 : ghO.getPR 0 = .ok pr) (h2 : ghO.getPR 1 = .ok pr)
    (hm : pr.isMerged = true) (hf : pr.isFromFork = false)
    (hc : CollectTargets pr.labels cfg.labelPre = .ok ts0)
    (hne : applyManualTargets cfg ts0 ≠ [])
    (hv : ValidateTargets (applyManualTargets cfg ts0) = .ok ())
    (hms : pr.mergeSHA = "") (hhs : pr.headSHA = "") :
    (processPullRequest cfg ghO gitEx).1 =
      .error "source commit SHA could not be determined" ∧
    (processPullRequest cfg ghO gitEx).2 = [.getPR, .getPR] := by
  have hev : evaluateTargets cfg ghO pr (applyManualTargets cfg ts0) =
      (.error "source commit SHA could not be determined", []) := by
    simp [evaluateTargets, hms, hhs]
  constructor <;>
    simp [processPullRequest, h1, h2, hm, hf, hc, hne, hv, hev]

/-- Witness for C10 at the no-SHA fixture. -/
theorem c10_missing_source_sha_witness :
    (processPullRequest cfgFail ghNoSHA none).1 =
      .error "source commit SHA could not be determined" ∧
    (processPullRequest cfgFail ghNoSHA none).2 = [.getPR, .getPR] :=
  c10_missing_source_sha cfgFail ghNoSHA none prNoSHA
    [{ labelName := "cp/b1", branch := "b1" }]
    rfl rfl rfl rfl rfl (by decide) rfl rfl rfl

/-- Helper: evaluating one target performs only read-only remote calls. -/
theorem evaluateTarget1_events_read (cfg : Config) (ghO : GhOracle) (sc : String)
    (t : Target) :
    ((evaluateTarget1 cfg ghO sc t).2).all
      (fun e => !e.isMutatingRemote && !e.isWorkspaceOp) = true := by
  simp only [evaluateTarget1]
  repeat' split
  all_goals rfl

/-- Helper: the whole evaluation walk performs only read-only remote calls. -/
theorem evalLoop_events_read (cfg : Config) (ghO : GhOracle) (sc : String) :
    ∀ ts : List Target,
      ((evalLoop cfg ghO sc ts).2).all
        (fun e => !e.isMutatingRemote && !e.isWorkspaceOp) = true := by
  intro ts
  induction ts with
  | nil => rfl
  | cons t rest ih =>
    rcases hE : evaluateTarget1 cfg ghO sc t with ⟨res, ev⟩
    have hev : ev.all (fun e => !e.isMutatingRemote && !e.isWorkspaceOp) = true := by
      have := evaluateTarget1_events_read cfg ghO sc t
      rw [hE] at this
      exact this
    rcases res with e | r
    · simp [evalLoop, hE, hev]
    · rcases hR : evalLoop cfg ghO sc rest with ⟨res2, ev2⟩
      have hev2 : ev2.all (fun e => !e.isMutatingRemote && !e.isWorkspaceOp) = true := by
        rw [hR] at ih
        exact ih
      rcases res2 with e2 | rs2 <;> simp [evalLoop, hE, hR, List.all_append, hev, hev2]

/-- Helper: target evaluation performs only read-only remote calls. -/
theorem evaluateTargets_events_read (cfg : Config) (ghO : GhOracle) (pr : PRMetadata)
    (ts : List Target) :
    ((evaluateTargets cfg ghO pr ts).2).all
      (fun e => !e.isMutatingRemote && !e.isWorkspaceOp) = true := by
  by_cases hz : (if pr.mergeSHA = "" then pr.headSHA else pr.mergeSHA) = ""
  · simp [evaluateTargets, hz]
  · rcases hEL : evalLoop cfg ghO (if pr.mergeSHA = "" then pr.headSHA else pr.mergeSHA)
        ts with ⟨res, ev⟩
    have h := evalLoop_events_read cfg ghO
      (if pr.mergeSHA = "" then pr.headSHA else pr.mergeSHA) ts
    rw [hEL] at h
    rcases res with e | rs <;> simp [evaluateTargets, hz, hEL, h]

/-- Claim C9: with dry-run enabled and at least one pending target after
evaluation, ProcessPullRequest flips every pending target to dry_run, leaves
the other targets unchanged, and performs no workspace operation and no
mutating remote operation. -/
theorem c9_dry_run (cfg : Config) (ghO : GhOracle) (gitEx : Option GitOracle)
    (pr : PRMetadata) (ts0 : List Target) (sha : String) (plan : List TargetResult)
    (hdry : cfg.dryRun = true)
    (h1 : ghO.getPR 0 = .ok pr) (h2 : ghO.getPR 1 = .ok pr)
    (hm : pr.isMerged = true) (hf : pr.isFromFork = false)
    (hc : CollectTargets pr.labels cfg.labelPre = .ok ts0)
    (hne : applyManualTargets cfg ts0 ≠ [])
    (hv : ValidateTargets (applyManualTargets cfg ts0) = .ok ())
    (he : (evaluateTargets cfg ghO pr (applyManualTargets cfg ts0)).1 = .ok (sha, plan))
    (hp : hasPendingTargets plan = true) :
    (processPullRequest cfg ghO gitEx).1 =
      .ok { skipped := false, skippedReason := "", targets := plan.map dryRunFlip } ∧
    ∀ e ∈ (processPullRequest cfg ghO gitEx).2,
      e.isMutatingRemote = false ∧ e.isWorkspaceOp = false := by
  rcases hev : evaluateTargets cfg ghO pr (applyManualTargets cfg ts0) with ⟨res, ev⟩
  have hres : res = .ok (sha, plan) := by
    rw [hev] at he
    exact he
  subst hres
  have hall : ev.all (fun e => !e.isMutatingRemote && !e.isWorkspaceOp) = true := by
    have := evaluateTargets_events_read cfg ghO pr (applyManualTargets cfg ts0)
    rw [hev] at this
    exact this
  constructor
  · simp [processPullRequest, h1, h2, hm, hf, hc, hne, hv, hev, hp, hdry]
  · intro e hmem
    simp only [processPullRequest, h1, h2, hm, hf, hc, hne, hv, hev, hp, hdry] at hmem
    simp [hne, hp] at hmem
    rcases hmem with rfl | hmem
    · exact ⟨rfl, rfl⟩
    · have := List.all_eq_true.mp hall e hmem
      simp only [Bool.and_eq_true, Bool.not_eq_true'] at this
      exact this

/-- Witness for C9: the one-target pending run under dry-run mode. -/
theorem c9_dry_run_witness :
    (processPullRequest cfgDry ghAllClear none).1 =
      .ok { skipped := false, skippedReason := ""
            targets := [trPend].map dryRunFlip } ∧
    ∀ e ∈ (processPullRequest cfgDry ghAllClear none).2,
      e.isMutatingRemote = false ∧ e.isWorkspaceOp = false :=
  c9_dry_run cfgDry ghAllClear none prOne [{ labelName := "cp/b1", branch := "b1" }]
    "abc" [trPend] rfl rfl rfl rfl rfl rfl (by decide) rfl (by rfl) rfl

/-- Helper: every exit path of executeTarget sets a terminal status. -/
theorem executeTarget_not_pending (cfg : Config) (ghO : GhOracle)
    (prep : Except String WsOracle) (pr : PRMetadata) (sc : String) (target : TargetResult) :
    (executeTarget cfg ghO prep pr sc target).1.status ≠ .pending := by
  simp only [executeTarget, handleCherryPickError, handlePlaceholderConflict,
    finalizeCherryPickSuccess]
  repeat' split
  all_goals simp

/-- Helper: executePendingTargets returns one result per planned target; a
non-pending target passes through unchanged and a pending one is replaced by
exactly the execution of that target against its own freshly prepared
workspace (the ordinal counting the pending targets before it). -/
theorem executePendingTargets_spec (cfg : Config) (ghO : GhOracle) (gitF : GitOracle)
    (pr : PRMetadata) (sha : String) :
    ∀ (plan : List TargetResult) (k : Nat),
      (executePendingTargets cfg ghO gitF pr sha k plan).1.length = plan.length ∧
      ∀ i (h1 : i < plan.length)
          (h2 : i < (executePendingTargets cfg ghO gitF pr sha k plan).1.length),
        ((plan.get ⟨i, h1⟩).status ≠ .pending →
          (executePendingTargets cfg ghO gitF pr sha k plan).1.get ⟨i, h2⟩ =
            plan.get ⟨i, h1⟩) ∧
        ((plan.get ⟨i, h1⟩).status = .pending →
          (executePendingTargets cfg ghO gitF pr sha k plan).1.get ⟨i, h2⟩ =
            (executeTarget cfg ghO (gitF (k + countPendingBefore plan i)) pr sha
              (plan.get ⟨i, h1⟩)).1) := by
  intro plan
  induction plan with
  | nil =>
    intro k
    exact ⟨rfl, fun i h1 _ => absurd h1 (by simp)⟩
  | cons r rest ih =>
    intro k
    by_cases hr : r.status = .pending
    · have hstep : executePendingTargets cfg ghO gitF pr sha k (r :: rest) =
          ((executeTarget cfg ghO (gitF k) pr sha r).1 ::
            (executePendingTargets cfg ghO gitF pr sha (k + 1) rest).1,
           (executeTarget cfg ghO (gitF k) pr sha r).2 ++
            (executePendingTargets cfg ghO gitF pr sha (k + 1) rest).2) := by
        simp [executePendingTargets, hr]
      obtain ⟨hlen, hpt⟩ := ih (k + 1)
      refine ⟨by simp [hstep, hlen], ?pt⟩
      intro i h1 h2
      match i with
      | 0 =>
        constructor
        · intro hnp
          exact absurd hr hnp
        · intro _
          simp [hstep, countPendingBefore, List.get]
      | j + 1 =>
        have hcpb : countPendingBefore (r :: rest) (j + 1) = countPendingBefore rest j + 1 := by
          simp [countPendingBefore, List.take_succ_cons, hr]
        have h1' : j < rest.length := by simpa using h1
        have h2' : j < (executePendingTargets cfg ghO gitF pr sha (k + 1) rest).1.length := by
          rw [hlen]
          exact h1'
        obtain ⟨ha, hb⟩ := hpt j h1' h2'
        constructor
        · intro hnp
          have : (executePendingTargets cfg ghO gitF pr sha k (r :: rest)).1.get ⟨j + 1, h2⟩ =
              (executePendingTargets cfg ghO gitF pr sha (k + 1) rest).1.get ⟨j, h2'⟩ := by
            simp [hstep, List.get]
          rw [this]
          exact ha (by simpa using hnp)
        · intro hp2
          have heq : (executePendingTargets cfg ghO gitF pr sha k (r :: rest)).1.get ⟨j + 1, h2⟩ =
              (executePendingTargets cfg ghO gitF pr sha (k + 1) rest).1.get ⟨j, h2'⟩ := by
            simp [hstep, List.get]
          rw [heq, hb (by simpa using hp2), hcpb]
          have harith : k + 1 + countPendingBefore rest j = k + (countPendingBefore rest j + 1) :=
            by omega
          rw [harith]
          rfl
    · have hstep : executePendingTargets cfg ghO gitF pr sha k (r :: rest) =
          (r :: (executePendingTargets cfg ghO gitF pr sha k rest).1,
           (executePendingTargets cfg ghO gitF pr sha k rest).2) := by
        simp [executePendingTargets, hr]
      obtain ⟨hlen, hpt⟩ := ih k
      refine ⟨by simp [hstep, hlen], ?pt2⟩
      intro i h1 h2
      match i with
      | 0 =>
        constructor
        · intro _
          simp [hstep, List.get]
        · intro hp2
          exact absurd hp2 hr
      | j + 1 =>
        have hcpb : countPendingBefore (r :: rest) (j + 1) = countPendingBefore rest j := by
          simp [countPendingBefore, List.take_succ_cons, hr]
        have h1' : j < rest.length := by simpa using h1
        have h2' : j < (executePendingTargets cfg ghO gitF pr sha k rest).1.length := by
          rw [hlen]
          exact h1'
        obtain ⟨ha, hb⟩ := hpt j h1' h2'
        have heq : (executePendingTargets cfg ghO gitF pr sha k (r :: rest)).1.get ⟨j + 1, h2⟩ =
            (executePendingTargets cfg ghO gitF pr sha k rest).1.get ⟨j, h2'⟩ := by
          simp [hstep, List.get]
        constructor
        · intro hnp
          rw [heq]
          exact ha (by simpa using hnp)
        · intro hp2
          rw [heq, hb (by simpa using hp2), hcpb]
          rfl

/-- Counterexample to claim C7 as stated: with two labelled targets, a
collaborator failure while evaluating the first target (listing its
cherry-pick PRs fails) aborts the whole run — ProcessPullRequest returns an
error, the second target is never evaluated (no collaborator call mentions
branch b2), and no TargetResult is produced for any target. -/
theorem c7_counterexample :
    (processPullRequest cfgFail ghListBoom (some gitConflict)).1 =
      .error "list cherry-pick prs for b1: boom" ∧
    (processPullRequest cfgFail ghListBoom (some gitConflict)).2 =
      [.getPR, .getPR, .hasLabel "cp/done/b1", .ensureBranch "b1", .listPRs "b1"] := by
  constructor <;> rfl

/-- Claim C7 (amended): per-target failures during the execution phase never
abort the run.  Once evaluation has produced a plan with pending targets,
whatever the workspace and remote collaborators do, ProcessPullRequest
returns a Result (no error) with one TargetResult per planned target:
non-pending targets pass through unchanged, and each pending target is
replaced by exactly the execution of that one target (so one target's
execution failure never prevents execution of the others), ending in a
terminal (non-pending) status.  (During evaluation, collaborator errors
other than a missing branch or a failed done-label check abort the run,
as the counterexample shows.) -/
theorem c7_per_target_isolation (cfg : Config) (ghO : GhOracle) (gitF : GitOracle)
    (pr : PRMetadata) (ts0 : List Target) (sha : String) (plan : List TargetResult)
    (h1 : ghO.getPR 0 = .ok pr) (h2 : ghO.getPR 1 = .ok pr)
    (hm : pr.isMerged = true) (hf : pr.isFromFork = false)
    (hc : CollectTargets pr.labels cfg.labelPre = .ok ts0)
    (hne : applyManualTargets cfg ts0 ≠ [])
    (hv : ValidateTargets (applyManualTargets cfg ts0) = .ok ())
    (he : (evaluateTargets cfg ghO pr (applyManualTargets cfg ts0)).1 = .ok (sha, plan))
    (hp : hasPendingTargets plan = true)
    (hdry : cfg.dryRun = false) :
    (processPullRequest cfg ghO (some gitF)).1 =
      .ok { skipped := false, skippedReason := ""
            targets := (executePendingTargets cfg ghO gitF pr sha 0 plan).1 } ∧
    (executePendingTargets cfg ghO gitF pr sha 0 plan).1.length = plan.length ∧
    ∀ i (hi : i < plan.length)
        (hi2 : i < (executePendingTargets cfg ghO gitF pr sha 0 plan).1.length),
      ((plan.get ⟨i, hi⟩).status ≠ .pending →
        (executePendingTargets cfg ghO gitF pr sha 0 plan).1.get ⟨i, hi2⟩ =
          plan.get ⟨i, hi⟩) ∧
      ((plan.get ⟨i, hi⟩).status = .pending →
        (executePendingTargets cfg ghO gitF pr sha 0 plan).1.get ⟨i, hi2⟩ =
          (executeTarget cfg ghO (gitF (countPendingBefore plan i)) pr sha
            (plan.get ⟨i, hi⟩)).1 ∧
        ((executePendingTargets cfg ghO gitF pr sha 0 plan).1.get ⟨i, hi2⟩).status ≠
          .pending) := by
  rcases hev : evaluateTargets cfg ghO pr (applyManualTargets cfg ts0) with ⟨res, ev⟩
  have hres : res = .ok (sha, plan) := by
    rw [hev] at he
    exact he
  subst hres
  obtain ⟨hlen, hpt⟩ := executePendingTargets_spec cfg ghO gitF pr sha plan 0
  refine ⟨?run, hlen, ?pt⟩
  case run =>
    rcases hex : executePendingTargets cfg ghO gitF pr sha 0 plan with ⟨plan2, ev2⟩
    simp [processPullRequest, h1, h2, hm, hf, hc, hne, hv, hev, hp, hdry, hex]
  case pt =>
    intro i hi hi2
    obtain ⟨ha, hb⟩ := hpt i hi hi2
    refine ⟨ha, fun hpend => ⟨?ex, ?term⟩⟩
    case ex =>
      simpa using hb hpend
    case term =>
      rw [hb hpend]
      exact executeTarget_not_pending cfg ghO (gitF (0 + countPendingBefore plan i)) pr sha
        (plan.get ⟨i, hi⟩)

/-- Witness for the amended C7: the one-target run whose execution hits a
cherry-pick conflict under the fail strategy still returns a full Result with
that target failed. -/
theorem c7_per_target_isolation_witness :
    (processPullRequest cfgFail ghAllClear (some gitConflict)).1 =
      .ok { skipped := false, skippedReason := ""
            targets := (executePendingTargets cfgFail ghAllClear gitConflict prOne "abc"
              0 [trPend]).1 } ∧
    (executePendingTargets cfgFail ghAllClear gitConflict prOne "abc" 0 [trPend]).1.length =
      [trPend].length := by
  have h := c7_per_target_isolation cfgFail ghAllClear gitConflict prOne
    [{ labelName := "cp/b1", branch := "b1" }] "abc" [trPend]
    rfl rfl rfl rfl rfl (by decide) rfl (by rfl) rfl rfl
  exact ⟨h.1, h.2.1⟩

/-- Claim C6: the pull-request creation options carry the decorated title, a
body starting with the exact cherry-pick marker on its own line and later
containing the original PR body, the source labels minus every label whose
case-insensitive trimmed text starts with the configured prefix, and the
source assignees verbatim (head is the cherry-pick branch, base the target
branch). -/
theorem c6_create_pr_options (cfg : Config) (pr : PRMetadata) (target : Target)
    (branchName : String)
    (ho : trimSpaceS pr.owner = pr.owner) (ho2 : pr.owner ≠ "")
    (hr : trimSpaceS pr.repo = pr.repo) (hr2 : pr.repo ≠ "")
    (hpfx : lowerS (trimSpaceS cfg.labelPre) ≠ "") :
    (buildCreatePROptions cfg pr target branchName).title =
      "[" ++ target.branch ++ "] " ++ pr.title ∧
    (∃ rest,
      (buildCreatePROptions cfg pr target branchName).body =
        ("<!-- cherry-pick-of: " ++ pr.owner ++ "/" ++ pr.repo ++ "#" ++ intDecS pr.number ++
          " -> " ++ target.branch ++ " -->" ++ "\n") ++ rest ∧
      (pr.body ≠ "" → ∃ mid tl, rest = mid ++ pr.body ++ tl)) ∧
    (buildCreatePROptions cfg pr target branchName).labels =
      pr.labels.filter (fun l =>
        ¬ startsWithS (lowerS (trimSpaceS l)) (lowerS (trimSpaceS cfg.labelPre))) ∧
    (buildCreatePROptions cfg pr target branchName).assignees = pr.assignees ∧
    (buildCreatePROptions cfg pr target branchName).head = branchName ∧
    (buildCreatePROptions cfg pr target branchName).base = target.branch := by
  have hmc : buildMetadataComment pr target =
      "<!-- cherry-pick-of: " ++ pr.owner ++ "/" ++ pr.repo ++ "#" ++ intDecS pr.number ++
        " -> " ++ target.branch ++ " -->" := by
    simp only [buildMetadataComment, ho, hr, ho2, hr2, ne_eq, not_false_iff, and_self,
      if_true, if_pos]
    simp [String.append_assoc]
  refine ⟨rfl, ?body, ?labels, rfl, rfl, rfl⟩
  case body =>
    refine ⟨"Cherry pick of #" ++ intDecS pr.number ++ " into `" ++ target.branch ++
      "`.\n\n" ++ (if pr.body ≠ "" then pr.body ++ "\n\n" else "") ++
      "--\n" ++ "Automated cherry-pick by rancher/cherry-pick-action.", ?beq, ?bcontains⟩
    case beq =>
      simp only [buildCreatePROptions, hmc]
      simp only [String.append_assoc]
    case bcontains =>
      intro hb
      refine ⟨"Cherry pick of #" ++ intDecS pr.number ++ " into `" ++ target.branch ++
        "`.\n\n", "\n\n" ++ "--\n" ++ "Automated cherry-pick by rancher/cherry-pick-action.",
        ?req⟩
      simp only [hb, ne_eq, not_false_iff, if_pos, if_true]
      simp only [String.append_assoc]
  case labels =>
    simp only [buildCreatePROptions, filterCherryPickLabels]
    split
    · rename_i hnil
      simp [hnil]
    · simp only [ne_eq, hpfx, not_false_iff, true_and]

/-- Witness for C6 at the one-target fixture. -/
theorem c6_create_pr_options_witness :
    (buildCreatePROptions cfgFail prOne { labelName := "cp/b1", branch := "b1" }
        "cherry-pick/b1/pr-7").title = "[" ++ "b1" ++ "] " ++ prOne.title ∧
    (buildCreatePROptions cfgFail prOne { labelName := "cp/b1", branch := "b1" }
        "cherry-pick/b1/pr-7").assignees = prOne.assignees := by
  have h := c6_create_pr_options cfgFail prOne { labelName := "cp/b1", branch := "b1" }
    "cherry-pick/b1/pr-7" (by decide) (by decide) (by decide) (by decide) (by decide)
  exact ⟨h.1, h.2.2.2.1⟩

/-- Helper: a list whose ends avoid `p` is untouched by the two-sided trim. -/
theorem trimListP_eq_self (p : Char → Bool) (l : List Char)
    (h1 : l.dropWhile p = l) (h2 : l.reverse.dropWhile p = l.reverse) :
    trimListP p l = l := by
  simp [trimListP, h1, h2]

/-- Helper: conversely, an untrimmed list is untouched by each one-sided
drop. -/
theorem trimListP_parts (p : Char → Bool) (l : List Char) (h : trimListP p l = l) :
    l.dropWhile p = l ∧ l.reverse.dropWhile p = l.reverse := by
  have hlen1 : (l.dropWhile p).length ≤ l.length :=
    (List.dropWhile_suffix _).sublist.length_le
  have hlen2 : (((l.dropWhile p).reverse.dropWhile p)).length ≤ (l.dropWhile p).length := by
    have : (((l.dropWhile p).reverse.dropWhile p)) <:+ (l.dropWhile p).reverse :=
      List.dropWhile_suffix p
    have := this.sublist.length_le
    simpa using this
  have hlen3 : (trimListP p l).length = ((l.dropWhile p).reverse.dropWhile p).length := by
    simp [trimListP]
  have hleq : (l.dropWhile p).length = l.length := by
    have := congrArg List.length h
    rw [hlen3] at this
    omega
  have hfront : l.dropWhile p = l :=
    (List.dropWhile_suffix _).sublist.eq_of_length hleq
  refine ⟨hfront, ?back⟩
  have : trimListP p l = ((l.reverse.dropWhile p)).reverse := by
    simp [trimListP, hfront]
  rw [this] at h
  have := congrArg List.reverse h
  simpa using this

/-- Helper: if dropping `p`-elements leaves a cons unchanged, its head fails
`p`. -/
theorem dropWhile_fix_head (p : Char → Bool) (c : Char) (l : List Char)
    (h : (c :: l).dropWhile p = c :: l) : p c = false := by
  by_cases hc : p c = true
  · have : (c :: l).dropWhile p = l.dropWhile p := by
      simp [List.dropWhile_cons, hc]
    rw [this] at h
    have hle : (l.dropWhile p).length ≤ l.length :=
      (List.dropWhile_suffix _).sublist.length_le
    have := congrArg List.length h
    simp at this
    omega
  · simpa using hc

/-- Helper: a leading `p`-element is absorbed by the two-sided trim. -/
theorem trimListP_cons_absorb (p : Char → Bool) (a : Char) (l : List Char)
    (ha : p a = true) : trimListP p (a :: l) = trimListP p l := by
  simp [trimListP, List.dropWhile_cons, ha]

/-- Helper: a trailing `p`-element is absorbed by the two-sided trim. -/
theorem trimListP_concat_absorb (p : Char → Bool) (a : Char) (l : List Char)
    (ha : p a = true) : trimListP p (l ++ [a]) = trimListP p l := by
  rcases hsplit : l.dropWhile p with _ | ⟨c, rest⟩
  · have hempty : (l ++ [a]).dropWhile p = [a].dropWhile p := by
      rw [List.dropWhile_append]
      simp [hsplit]
    have ha2 : ([a] : List Char).dropWhile p = [] := by
      simp [List.dropWhile_cons, ha]
    simp [trimListP, hempty, ha2, hsplit]
  · have hfull : (l ++ [a]).dropWhile p = l.dropWhile p ++ [a] := by
      rw [List.dropWhile_append]
      simp [hsplit]
    simp only [trimListP, hfull, hsplit]
    simp [List.dropWhile_cons, ha]

/-- Helper: a character folding to lowercase r is neither whitespace nor a
slash. -/
theorem toLower_r_facts (c : Char) (h : Char.toLower c = 'r') :
    goIsSpace c = false ∧ c ≠ '/' := by
  constructor
  · by_cases hs : goIsSpace c = true
    · simp only [goIsSpace, Bool.or_eq_true, decide_eq_true_eq] at hs
      rcases hs with ((((((rfl | rfl) | rfl) | rfl) | rfl) | rfl) | rfl) | rfl <;>
        exact absurd h (by decide)
    · simpa using hs
  · intro hc
    subst hc
    exact absurd h (by decide)

/-- Helper: the branches collected by the label loop are exactly the
first-seen deduplication of the parsed branches. -/
theorem collectLoop_branches (p : String) :
    ∀ (names : List String) (seen : List String),
      (collectLoop p seen names).map Target.branch =
        dedupFirstFrom seen (names.filterMap (fun n => parseBranch n p)) := by
  intro names
  induction names with
  | nil =>
    intro seen
    rfl
  | cons name rest ih =>
    intro seen
    rcases hp : parseBranch name p with _ | b
    · simp [collectLoop, hp, List.filterMap_cons, ih]
    · by_cases hmem : b ∈ seen
      · simp [collectLoop, hp, List.filterMap_cons, dedupFirstFrom, hmem, ih]
      · simp [collectLoop, hp, List.filterMap_cons, dedupFirstFrom, hmem, ih]

/-- Helper: first-seen deduplication produces no duplicates and avoids the
seen set. -/
theorem dedupFirstFrom_nodup :
    ∀ (l : List String) (seen : List String),
      (dedupFirstFrom seen l).Nodup ∧ ∀ b ∈ dedupFirstFrom seen l, b ∉ seen := by
  intro l
  induction l with
  | nil =>
    intro seen
    exact ⟨List.nodup_nil, by simp [dedupFirstFrom]⟩
  | cons b rest ih =>
    intro seen
    by_cases hmem : b ∈ seen
    · obtain ⟨h1, h2⟩ := ih seen
      exact ⟨by simpa [dedupFirstFrom, hmem] using h1,
        by simpa [dedupFirstFrom, hmem] using h2⟩
    · obtain ⟨h1, h2⟩ := ih (b :: seen)
      constructor
      · simp only [dedupFirstFrom, hmem, if_neg, if_false, List.nodup_cons]
        refine ⟨fun hb => ?notin, h1⟩
        case notin =>
          have := h2 b hb
          simp at this
      · intro x hx
        simp only [dedupFirstFrom, hmem, if_neg, if_false, List.mem_cons] at hx
        rcases hx with rfl | hx
        · exact hmem
        · have := h2 x hx
          intro hxs
          exact this (List.mem_cons_of_mem _ hxs)

/-- Helper: every target the loop emits comes from one of the walked labels. -/
theorem collectLoop_sound (p : String) :
    ∀ (names : List String) (seen : List String), ∀ t ∈ collectLoop p seen names,
      t.labelName ∈ names ∧ parseBranch t.labelName p = some t.branch := by
  intro names
  induction names with
  | nil =>
    intro seen t ht
    simp [collectLoop] at ht
  | cons name rest ih =>
    intro seen t ht
    rcases hp : parseBranch name p with _ | b
    · rw [collectLoop, hp] at ht
      obtain ⟨h1, h2⟩ := ih seen t ht
      exact ⟨List.mem_cons_of_mem _ h1, h2⟩
    · rw [collectLoop, hp] at ht
      by_cases hmem : b ∈ seen
      · simp only [hmem, if_true] at ht
        obtain ⟨h1, h2⟩ := ih seen t ht
        exact ⟨List.mem_cons_of_mem _ h1, h2⟩
      · simp only [hmem, if_false, List.mem_cons] at ht
        rcases ht with rfl | ht
        · exact ⟨List.mem_cons_self _ _, hp⟩
        · obtain ⟨h1, h2⟩ := ih (b :: seen) t ht
          exact ⟨List.mem_cons_of_mem _ h1, h2⟩

/-- Helper: every parsed branch not already seen appears among the collected
branches. -/
theorem collectLoop_complete (p : String) :
    ∀ (names : List String) (seen : List String) (name : String) (b : String),
      name ∈ names → parseBranch name p = some b → b ∉ seen →
      b ∈ (collectLoop p seen names).map Target.branch := by
  intro names
  induction names with
  | nil =>
    intro seen name b hmem
    simp at hmem
  | cons name0 rest ih =>
    intro seen name b hmem hp hseen
    rcases List.mem_cons.mp hmem with rfl | hmem2
    · rw [collectLoop, hp]
      simp only [hseen, if_false]
      simp
    · rcases hp0 : parseBranch name0 p with _ | b0
      · rw [collectLoop, hp0]
        exact ih seen name b hmem2 hp hseen
      · rw [collectLoop, hp0]
        by_cases hm0 : b0 ∈ seen
        · simp only [hm0, if_true]
          exact ih seen name b hmem2 hp hseen
        · simp only [hm0, if_false]
          by_cases hbb : b = b0
          · subst hbb
            simp
          · have : b ∉ b0 :: seen := by
              simp [hbb, hseen]
            have := ih (b0 :: seen) name b hmem2 hp this
            simpa using Or.inr this

/-- Helper: the label-match rule.  A label yields a branch exactly when its
trimmed text is non-empty, its lowercase form starts with the lowercase
prefix, and the remainder past the prefix normalizes to a non-empty branch —
which is the branch returned. -/
theorem parseBranch_iff (name p b : String) :
    parseBranch name p = some b ↔
      trimSpaceL name.data ≠ [] ∧
      startsWithL (lowerL (trimSpaceL name.data)) (lowerL p.data) = true ∧
      NormalizeBranch ⟨(trimSpaceL name.data).drop p.length⟩ ≠ "" ∧
      b = NormalizeBranch ⟨(trimSpaceL name.data).drop p.length⟩ := by
  by_cases h1 : trimSpaceL name.data = []
  · simp [parseBranch, h1]
  · by_cases h2 : startsWithL (lowerL (trimSpaceL name.data)) (lowerL p.data) = true
    · by_cases h3 : NormalizeBranch ⟨(trimSpaceL name.data).drop p.length⟩ = ""
      · simp [parseBranch, h1, h2, h3]
      · simp [parseBranch, h1, h2, h3, eq_comm]
    · simp [parseBranch, h1, h2]

/-- Helper: surrounding slashes on an (already whitespace-trimmed) branch
text do not change its normalization. -/
theorem normalizeBranch_slashes (r : String) (hr : trimSpaceS r = r) :
    NormalizeBranch ("/" ++ r ++ "/") = NormalizeBranch r := by
  have hrdata : trimSpaceL r.data = r.data := congrArg String.data hr
  have hdec : ("/" ++ r ++ "/").data = '/' :: (r.data ++ ['/']) := by
    simp
  have ht1 : trimSpaceL ('/' :: (r.data ++ ['/'])) = '/' :: (r.data ++ ['/']) := by
    apply trimListP_eq_self
    · simp [List.dropWhile_cons, goIsSpace]
    · have : ('/' :: (r.data ++ ['/'])).reverse = '/' :: (r.data.reverse ++ ['/']) := by
        simp
      rw [this]
      simp [List.dropWhile_cons, goIsSpace]
  have ht2 : trimCutL ['/'] ('/' :: (r.data ++ ['/'])) = trimCutL ['/'] r.data := by
    have hfront := trimListP_cons_absorb (fun c => (['/'] : List Char).contains c) '/'
      (r.data ++ ['/']) (by decide)
    have hback := trimListP_concat_absorb (fun c => (['/'] : List Char).contains c) '/'
      r.data (by decide)
    simp only [trimCutL]
    rw [hfront, hback]
  simp only [NormalizeBranch, hdec, ht1, ht2, hrdata]

/-- Helper: a leading refs/heads/ prefix in any character casing is stripped
by normalization; without one, a clean branch text is left unchanged. -/
theorem normalizeBranch_refs_heads (pre r : String)
    (hpre : lowerL pre.data = "refs/heads/".data)
    (hr1 : trimSpaceS r = r) (hr2 : trimCutS ['/'] r = r) (hrne : r ≠ "")
    (hnot : ¬ (r.data.length ≥ 11 ∧ equalFoldL (r.data.take 11) "refs/heads/".data = true)) :
    NormalizeBranch (pre ++ r) = r ∧ NormalizeBranch r = r := by
  have hr1d : trimSpaceL r.data = r.data := congrArg String.data hr1
  have hr2d : trimCutL ['/'] r.data = r.data := congrArg String.data hr2
  have hrd : r.data ≠ [] := by
    intro hcontra
    apply hrne
    have h0 : r = ⟨r.data⟩ := rfl
    rw [h0, hcontra]
  have hlen : pre.data.length = 11 := by
    have := congrArg List.length hpre
    simpa [lowerL] using this
  obtain ⟨c, pre2, hc⟩ : ∃ c pre2, pre.data = c :: pre2 := by
    rcases hp : pre.data with _ | ⟨c, pre2⟩
    · rw [hp] at hlen
      simp at hlen
    · exact ⟨c, pre2, rfl⟩
  have hlc : Char.toLower c = 'r' := by
    rw [hc] at hpre
    have : Char.toLower c :: lowerL pre2 = 'r' :: "efs/heads/".data := by
      simpa [lowerL] using hpre
    exact (List.cons.injEq _ _ _ _ ▸ this).1
  obtain ⟨hcsp, hcsl⟩ := toLower_r_facts c hlc
  -- the trimmed branch text keeps its non-space, non-slash end characters
  obtain ⟨e, re, he⟩ : ∃ e re, r.data.reverse = e :: re := by
    rcases hrev : r.data.reverse with _ | ⟨e, re⟩
    · have : r.data = [] := by
        have := congrArg List.reverse hrev
        simpa using this
      exact absurd this hrd
    · exact ⟨e, re, rfl⟩
  have hespace : goIsSpace e = false := by
    have hparts := (trimListP_parts goIsSpace r.data hr1d).2
    rw [he] at hparts
    exact dropWhile_fix_head _ _ _ hparts
  have heslash : (fun ch => (['/'] : List Char).contains ch) e = false := by
    have hparts := (trimListP_parts (fun ch => (['/'] : List Char).contains ch) r.data hr2d).2
    rw [he] at hparts
    exact dropWhile_fix_head _ _ _ hparts
  have heslash2 : e ≠ '/' := by
    simpa using heslash
  have hdec : (pre ++ r).data = pre.data ++ r.data := rfl
  -- whitespace trim leaves pre ++ r alone
  have ht1 : trimSpaceL (pre.data ++ r.data) = pre.data ++ r.data := by
    apply trimListP_eq_self
    · rw [hc]
      simp [List.cons_append, List.dropWhile_cons, hcsp]
    · rw [List.reverse_append, he]
      simp [List.cons_append, List.dropWhile_cons, hespace]
  -- slash trim leaves pre ++ r alone
  have ht2 : trimCutL ['/'] (pre.data ++ r.data) = pre.data ++ r.data := by
    apply trimListP_eq_self
    · rw [hc]
      simp [List.cons_append, List.dropWhile_cons, hcsl]
    · rw [List.reverse_append, he]
      simp [List.cons_append, List.dropWhile_cons, heslash2]
  have hcond : (pre.data ++ r.data).length ≥ 11 ∧
      equalFoldL ((pre.data ++ r.data).take 11) "refs/heads/".data = true := by
    constructor
    · simp [hlen]
    · have htake : (pre.data ++ r.data).take 11 = pre.data := by
        rw [← hlen]
        exact List.take_left _ _
      rw [htake]
      simp only [equalFoldL, hpre, decide_eq_true_eq]
      decide
  have hdrop : (pre.data ++ r.data).drop 11 = r.data := by
    rw [← hlen]
    exact List.drop_left _ _
  constructor
  · show NormalizeBranch ⟨pre.data ++ r.data⟩ = r
    simp only [NormalizeBranch, ht1, ht2]
    rw [if_pos (by exact_mod_cast hcond)]
    rw [hdrop, hr1d, hr2d, hr1d]
  · simp only [NormalizeBranch, hr1d, hr2d]
    rw [if_neg (by exact_mod_cast hnot)]
    rw [hr1d, hr2d, hr1d]

/-- Claim C5: with a non-empty (trimmed) prefix, CollectTargets succeeds and
returns targets whose branches are deduplicated in first-seen order (unique
by normalized branch); a label matches exactly when its case-insensitive
trimmed text starts with the prefix and its remainder normalizes to a
non-empty branch, every matching label's branch is kept, and normalization
is insensitive to stray surrounding slashes and strips a leading
refs/heads/ prefix in any casing. -/
theorem c5_collect_targets (labelNames : List String) (pfx : String)
    (h : trimSpaceS pfx ≠ "") :
    ∃ ts, CollectTargets labelNames pfx = .ok ts ∧
      (ts.map Target.branch).Nodup ∧
      ts.map Target.branch =
        dedupFirst (labelNames.filterMap (fun n => parseBranch n (trimSpaceS pfx))) ∧
      (∀ t ∈ ts, t.labelName ∈ labelNames ∧
        parseBranch t.labelName (trimSpaceS pfx) = some t.branch ∧ t.branch ≠ "") ∧
      (∀ name ∈ labelNames, ∀ b, parseBranch name (trimSpaceS pfx) = some b →
        b ∈ ts.map Target.branch) ∧
      (∀ name b, parseBranch name (trimSpaceS pfx) = some b ↔
        (trimSpaceL name.data ≠ [] ∧
         startsWithL (lowerL (trimSpaceL name.data)) (lowerL (trimSpaceS pfx).data) = true ∧
         NormalizeBranch ⟨(trimSpaceL name.data).drop (trimSpaceS pfx).length⟩ ≠ "" ∧
         b = NormalizeBranch ⟨(trimSpaceL name.data).drop (trimSpaceS pfx).length⟩)) ∧
      (∀ r : String, trimSpaceS r = r →
        NormalizeBranch ("/" ++ r ++ "/") = NormalizeBranch r) ∧
      (∀ pre r : String, lowerL pre.data = "refs/heads/".data →
        trimSpaceS r = r → trimCutS ['/'] r = r → r ≠ "" →
        ¬ (r.data.length ≥ 11 ∧ equalFoldL (r.data.take 11) "refs/heads/".data = true) →
        NormalizeBranch (pre ++ r) = r ∧ NormalizeBranch r = r) := by
  refine ⟨collectLoop (trimSpaceS pfx) [] labelNames, ?ok, ?nodup, ?order, ?sound,
    ?complete, ?rule, ?slashes, ?refsheads⟩
  case ok =>
    simp only [CollectTargets, h, if_neg, if_false]
  case nodup =>
    rw [collectLoop_branches]
    exact (dedupFirstFrom_nodup _ []).1
  case order =>
    rw [collectLoop_branches]
    rfl
  case sound =>
    intro t ht
    obtain ⟨h1, h2⟩ := collectLoop_sound (trimSpaceS pfx) labelNames [] t ht
    refine ⟨h1, h2, ?ne⟩
    case ne =>
      obtain ⟨_, _, hne, heq⟩ := (parseBranch_iff t.labelName (trimSpaceS pfx) t.branch).mp h2
      rw [heq]
      exact hne
  case complete =>
    intro name hname b hb
    exact collectLoop_complete (trimSpaceS pfx) labelNames [] name b hname hb (by simp)
  case rule =>
    intro name b
    exact parseBranch_iff name (trimSpaceS pfx) b
  case slashes =>
    intro r hr
    exact normalizeBranch_slashes r hr
  case refsheads =>
    intro pre r h1 h2 h3 h4 h5
    exact normalizeBranch_refs_heads pre r h1 h2 h3 h4 h5

/-- Witness for C5 on a label set exercising casing, duplicate branches,
stray slashes and an empty remainder. -/
theorem c5_collect_targets_witness :
    trimSpaceS " cp/ " ≠ "" ∧
    ∃ ts, CollectTargets ["cp/b1", "CP/b1", "cp//b1/", "cp/"] " cp/ " = .ok ts ∧
      (ts.map Target.branch).Nodup ∧
      ts.map Target.branch =
        dedupFirst (["cp/b1", "CP/b1", "cp//b1/", "cp/"].filterMap
          (fun n => parseBranch n (trimSpaceS " cp/ "))) ∧
      (∀ t ∈ ts, t.labelName ∈ ["cp/b1", "CP/b1", "cp//b1/", "cp/"] ∧
        parseBranch t.labelName (trimSpaceS " cp/ ") = some t.branch ∧ t.branch ≠ "") ∧
      (∀ name ∈ ["cp/b1", "CP/b1", "cp//b1/", "cp/"], ∀ b,
        parseBranch name (trimSpaceS " cp/ ") = some b → b ∈ ts.map Target.branch) ∧
      (∀ name b, parseBranch name (trimSpaceS " cp/ ") = some b ↔
        (trimSpaceL name.data ≠ [] ∧
         startsWithL (lowerL (trimSpaceL name.data)) (lowerL (trimSpaceS " cp/ ").data) =
           true ∧
         NormalizeBranch ⟨(trimSpaceL name.data).drop (trimSpaceS " cp/ ").length⟩ ≠ "" ∧
         b = NormalizeBranch ⟨(trimSpaceL name.data).drop (trimSpaceS " cp/ ").length⟩)) ∧
      (∀ r : String, trimSpaceS r = r →
        NormalizeBranch ("/" ++ r ++ "/") = NormalizeBranch r) ∧
      (∀ pre r : String, lowerL pre.data = "refs/heads/".data →
        trimSpaceS r = r → trimCutS ['/'] r = r → r ≠ "" →
        ¬ (r.data.length ≥ 11 ∧ equalFoldL (r.data.take 11) "refs/heads/".data = true) →
        NormalizeBranch (pre ++ r) = r ∧ NormalizeBranch r = r) :=
  ⟨by decide, c5_collect_targets ["cp/b1", "CP/b1", "cp//b1/", "cp/"] " cp/ " (by decide)⟩

/-- Helper: a natural below 10^k prints in at most k decimal digits. -/
theorem natDecDigits_length : ∀ (k n : Nat), n < 10 ^ k → 1 ≤ k →
    (natDecDigits n).length ≤ k := by
  intro k
  induction k with
  | zero =>
    intro n _ hk
    omega
  | succ k ih =>
    intro n hn _
    by_cases hsmall : n < 10
    · rw [natDecDigits, dif_pos hsmall]
      simp
    · rw [natDecDigits, dif_neg hsmall]
      have hdiv : n / 10 < 10 ^ k := by
        have h10 : 0 < 10 := by norm_num
        rw [Nat.div_lt_iff_lt_mul h10]
        calc n < 10 ^ (k + 1) := hn
          _ = 10 ^ k * 10 := by ring
      have hk1 : 1 ≤ k := by
        by_contra hk0
        have : k = 0 := by omega
        subst this
        simp at hdiv
        omega
      have := ih (n / 10) hdiv hk1
      simp only [List.length_append, List.length_cons, List.length_nil]
      omega

/-- Helper: an int64-range integer prints in at most 20 characters. -/
theorem intDecL_length (n : Int) (hlo : -(2 ^ 63) ≤ n) (hhi : n < 2 ^ 63) :
    (intDecL n).length ≤ 20 := by
  have hpow : (2 : Nat) ^ 63 < 10 ^ 19 := by norm_num
  by_cases hneg : n < 0
  · rw [intDecL, if_pos hneg]
    have hbound : (-n).toNat < 10 ^ 19 := by
      have h1 : -n ≤ 2 ^ 63 := by omega
      have h2 : (-n).toNat ≤ 2 ^ 63 := by omega
      omega
    have := natDecDigits_length 19 (-n).toNat hbound (by norm_num)
    simp only [List.length_cons]
    omega
  · rw [intDecL, if_neg hneg]
    have hbound : n.toNat < 10 ^ 19 := by
      have h2 : n.toNat < 2 ^ 63 := by omega
      omega
    have := natDecDigits_length 19 n.toNat hbound (by norm_num)
    omega

/-- Helper: the FNV-1a accumulator stays below 2^32. -/
theorem fnv32a_lt (l : List Char) : fnv32a l < 4294967296 := by
  have hgen : ∀ (l2 : List Char) (acc : Nat), acc < 4294967296 →
      l2.foldl (fun h c => fnv1aStep h c.toNat) acc < 4294967296 := by
    intro l2
    induction l2 with
    | nil =>
      intro acc hacc
      simpa using hacc
    | cons c rest ih =>
      intro acc _
      simp only [List.foldl_cons]
      exact ih _ (Nat.mod_lt _ (by norm_num))
  exact hgen l 2166136261 (by norm_num)

/-- Helper: a natural below 16^k prints in at most k hex digits. -/
theorem natHexDigits_length : ∀ (k n : Nat), n < 16 ^ k → 1 ≤ k →
    (natHexDigits n).length ≤ k := by
  intro k
  induction k with
  | zero =>
    intro n _ hk
    omega
  | succ k ih =>
    intro n hn _
    by_cases hsmall : n < 16
    · rw [natHexDigits, dif_pos hsmall]
      simp
    · rw [natHexDigits, dif_neg hsmall]
      have hdiv : n / 16 < 16 ^ k := by
        have h16 : 0 < 16 := by norm_num
        rw [Nat.div_lt_iff_lt_mul h16]
        calc n < 16 ^ (k + 1) := hn
          _ = 16 ^ k * 16 := by ring
      have hk1 : 1 ≤ k := by
        by_contra hk0
        have : k = 0 := by omega
        subst this
        simp at hdiv
        omega
      have := ih (n / 16) hdiv hk1
      simp only [List.length_append, List.length_cons, List.length_nil]
      omega

/-- Helper: the default 8-digit hash suffix has exactly 8 characters. -/
theorem fnvHex_length (seg : List Char) : (fnvHex seg 8).length = 8 := by
  have hlt : fnv32a seg < 16 ^ 8 := by
    have := fnv32a_lt seg
    norm_num at this ⊢
    omega
  have hdig := natHexDigits_length 8 (fnv32a seg) hlt (by norm_num)
  simp only [fnvHex, hexPad, List.length_append, List.length_replicate]
  omega

/-- Helper: right-trimming never lengthens a list. -/
theorem trimRightCutL_length_le (cut : List Char) (l : List Char) :
    (trimRightCutL cut l).length ≤ l.length := by
  simp only [trimRightCutL, List.length_reverse]
  have h1 : (l.reverse.dropWhile (fun c => cut.contains c)) <:+ l.reverse :=
    List.dropWhile_suffix _
  have := h1.sublist.length_le
  simpa using this

/-- Helper: with the default options, the shortened target segment always
fits the available room. -/
theorem shorten_length_le (segment : String) (available : Int) (h : 1 ≤ available) :
    (shortenTargetSegment segment available defaultBranchNaming).length ≤
      available.toNat := by
  have hav : ¬ (available ≤ 0) := by omega
  have hone : 1 ≤ available.toNat := by omega
  have hsuf : ('-' :: fnvHex segment.data 8).length = 9 := by
    simp [fnvHex_length]
  simp only [shortenTargetSegment, defaultBranchNaming, hav, if_false]
  split_ifs with h1 h2 h3 h4 h5 h6 h7
  all_goals simp_all
  -- hash-slice fallback: 8 hex digits fit in the available room
  · omega
  -- truncated fallback token, truncated segment empty after trim
  · have hb : (trimRightCutL ['-', '.', '/']
        (List.take (available ⊔ 0 - 9).toNat ['t', 'a', 'r', 'g', 'e', 't'])).length ≤
        (available ⊔ 0 - 9).toNat :=
      le_trans (trimRightCutL_length_le _ _) (by simp [List.length_take])
    omega
  -- whole fallback token
  · have hb : (trimRightCutL ['-', '.', '/'] ['t', 'a', 'r', 'g', 'e', 't']).length = 6 := by
      decide
    omega
  -- truncated segment plus hash suffix
  · have hb : (trimRightCutL ['-', '.', '/'] (trimRightCutL ['-', '.', '/']
        (List.take (available ⊔ 0 - 9).toNat segment.data))).length ≤
        (available ⊔ 0 - 9).toNat := by
      refine le_trans (trimRightCutL_length_le _ _) ?n1
      refine le_trans (trimRightCutL_length_le _ _) ?n2
      simp [List.length_take]
    omega
  -- short segment, fallback token truncated
  · have hb : (trimRightCutL ['-', '.', '/']
        (List.take (available ⊔ 0 - 9).toNat ['t', 'a', 'r', 'g', 'e', 't'])).length ≤
        (available ⊔ 0 - 9).toNat :=
      le_trans (trimRightCutL_length_le _ _) (by simp [List.length_take])
    omega
  -- short segment, whole fallback token
  · have hb : (trimRightCutL ['-', '.', '/'] ['t', 'a', 'r', 'g', 'e', 't']).length = 6 := by
      decide
    omega
  -- short segment kept, trimmed, plus hash suffix
  · have hb : (trimRightCutL ['-', '.', '/']
        (trimRightCutL ['-', '.', '/'] segment.data)).length ≤ segment.data.length :=
      le_trans (trimRightCutL_length_le _ _) (trimRightCutL_length_le _ _)
    have hd : segment.data.length = segment.length := rfl
    omega


/-- When the available room is a natural number of at least 10 and the
sanitized segment is strictly longer, the shortener truncates the segment to
room minus nine characters, trims trailing dash, dot and slash, and appends a
hyphen and the 8-digit hex FNV hash of the whole segment (provided the
trimmed truncation is nonempty). -/
theorem shorten_eq_of_long (seg : String) (a : Nat) (h9 : 10 ≤ a)
    (hlong : a < seg.data.length)
    (hbase : trimRightCutL ['-', '.', '/'] (seg.data.take (a - 9)) ≠ []) :
    shortenTargetSegment seg (a : Int) defaultBranchNaming =
      ⟨trimRightCutL ['-', '.', '/'] (trimRightCutL ['-', '.', '/']
          (seg.data.take (a - 9))) ++ '-' :: fnvHex seg.data 8⟩ := by
  have hHL : defaultBranchNaming.hashLength.toNat = 8 := by decide
  have hsuf : ('-' :: fnvHex seg.data 8).length = 9 := by
    rw [List.length_cons, fnvHex_length]
  have hidx : (((a : Int).toNat : Int) - (('-' :: fnvHex seg.data 8).length : Int)).toNat
      = a - 9 := by omega
  simp only [shortenTargetSegment, hHL]
  split_ifs <;>
    first
      | (exfalso; omega)
      | (rw [hidx]; done)
      | (exfalso; rw [hidx] at *; simp_all; done)

/-- Claim C3: branch naming is deterministic, never exceeds the default
63-character maximum for any target and any int64-range PR number, and when
the unshortened name would be too long the sanitized target segment is
truncated, re-trimmed of trailing dash, dot and slash, and suffixed with a
hyphen and the stable 8-digit hex FNV-1a hash of the whole sanitized
segment. -/
theorem c3_branch_naming (t : String) (n : Int)
    (hlo : -(2 ^ 63) ≤ n) (hhi : n < 2 ^ 63) :
    (∀ t2 n2, t2 = t → n2 = n →
      BranchNameForCherryPick t2 n2 = BranchNameForCherryPick t n) ∧
    (BranchNameForCherryPick t n).length ≤ 63 ∧
    (¬ ((("cherry-pick" ++ "/" ++ sanitizeBranchSegment t defaultBranchNaming ++ "/" ++
          ("pr-" ++ intDecS n)).data.length : Int) ≤ 63) →
     trimRightCutL ['-', '.', '/'] ((sanitizeBranchSegment t defaultBranchNaming).data.take
        (38 - (intDecL n).length)) ≠ [] →
     BranchNameForCherryPick t n =
       "cherry-pick" ++ "/" ++
         (⟨trimRightCutL ['-', '.', '/'] (trimRightCutL ['-', '.', '/']
            ((sanitizeBranchSegment t defaultBranchNaming).data.take
              (38 - (intDecL n).length))) ++
           '-' :: fnvHex (sanitizeBranchSegment t defaultBranchNaming).data 8⟩ : String) ++
         "/" ++ ("pr-" ++ intDecS n)) := by
  have hd20 : (intDecL n).length ≤ 20 := intDecL_length n hlo hhi
  have hplen : ("pr-" ++ intDecS n).data.length = 3 + (intDecL n).length := by
    simp [intDecS]
    omega
  have h11 : (("cherry-pick" : String)).data.length = 11 := by decide
  have hML : defaultBranchNaming.maxLength = 63 := rfl
  have hPfx : defaultBranchNaming.pfx = "cherry-pick" := rfl
  refine ⟨?det, ?len, ?structure2⟩
  case det =>
    intro t2 n2 ht hn
    rw [ht, hn]
  case len =>
    by_cases hfit : ((("cherry-pick" ++ "/" ++ sanitizeBranchSegment t defaultBranchNaming ++
        "/" ++ ("pr-" ++ intDecS n)).data.length : Int) ≤ 63)
    · have hthen : BranchNameForCherryPick t n =
          "cherry-pick" ++ "/" ++ sanitizeBranchSegment t defaultBranchNaming ++ "/" ++
            ("pr-" ++ intDecS n) := by
        simp only [BranchNameForCherryPick, branchNameWith, hML, hPfx]
        rw [if_pos hfit]
      rw [hthen]
      have hsame : ("cherry-pick" ++ "/" ++ sanitizeBranchSegment t defaultBranchNaming ++
          "/" ++ ("pr-" ++ intDecS n)).length =
          ("cherry-pick" ++ "/" ++ sanitizeBranchSegment t defaultBranchNaming ++ "/" ++
          ("pr-" ++ intDecS n)).data.length := rfl
      omega
    · have havail : ¬ ((63 : Int) - (("cherry-pick" : String).data.length : Int) - 1 -
          ((("pr-" ++ intDecS n)).data.length : Int) - 1 < 1) := by
        omega
      have hbody : BranchNameForCherryPick t n =
          "cherry-pick" ++ "/" ++
            shortenTargetSegment (sanitizeBranchSegment t defaultBranchNaming)
              ((63 : Int) - (("cherry-pick" : String).data.length : Int) - 1 -
                ((("pr-" ++ intDecS n)).data.length : Int) - 1) defaultBranchNaming ++
            "/" ++ ("pr-" ++ intDecS n) := by
        simp only [BranchNameForCherryPick, branchNameWith, hML, hPfx]
        rw [if_neg hfit, if_neg havail]
      rw [hbody]
      have hshort := shorten_length_le (sanitizeBranchSegment t defaultBranchNaming)
        ((63 : Int) - (("cherry-pick" : String).data.length : Int) - 1 -
          ((("pr-" ++ intDecS n)).data.length : Int) - 1) (by omega)
      have hdata : ∀ a b : String, (a ++ b).data = a.data ++ b.data := fun a b => rfl
      have hlenS : ∀ s : String, s.length = s.data.length := fun s => rfl
      have hidS : (intDecS n).data = intDecL n := rfl
      simp only [hlenS, hdata, List.length_append, List.length_cons, List.length_nil,
        hidS] at hshort ⊢
      omega
  case structure2 =>
    intro htrunc hbase
    have havail : ¬ ((63 : Int) - (("cherry-pick" : String).data.length : Int) - 1 -
        ((("pr-" ++ intDecS n)).data.length : Int) - 1 < 1) := by
      omega
    have hbody : BranchNameForCherryPick t n =
        "cherry-pick" ++ "/" ++
          shortenTargetSegment (sanitizeBranchSegment t defaultBranchNaming)
            ((63 : Int) - (("cherry-pick" : String).data.length : Int) - 1 -
              ((("pr-" ++ intDecS n)).data.length : Int) - 1) defaultBranchNaming ++
          "/" ++ ("pr-" ++ intDecS n) := by
      simp only [BranchNameForCherryPick, branchNameWith, hML, hPfx]
      rw [if_neg htrunc, if_neg havail]
    rw [hbody]
    have hcast : (63 : Int) - (("cherry-pick" : String).data.length : Int) - 1 -
        ((("pr-" ++ intDecS n)).data.length : Int) - 1 =
        ((47 - (intDecL n).length : Nat) : Int) := by
      omega
    rw [hcast]
    have hdata : ∀ a b : String, (a ++ b).data = a.data ++ b.data := fun a b => rfl
    have hidS : (intDecS n).data = intDecL n := rfl
    have htrunc2 := htrunc
    simp only [hdata, List.length_append, List.length_cons, List.length_nil,
      hidS] at htrunc2
    have hlong : 47 - (intDecL n).length <
        (sanitizeBranchSegment t defaultBranchNaming).data.length := by
      omega
    have hidx9 : 47 - (intDecL n).length - 9 = 38 - (intDecL n).length := by
      omega
    have hres := shorten_eq_of_long (sanitizeBranchSegment t defaultBranchNaming)
      (47 - (intDecL n).length) (by omega) hlong (by rw [hidx9]; exact hbase)
    rw [hidx9] at hres
    rw [hres]

theorem c3_branch_naming_witness :
    ((-(2 ^ 63) : Int) ≤ 999 ∧ ((999 : Int) < 2 ^ 63)) ∧
    (BranchNameForCherryPick
      "release-release-release-release-release-release-release-release-release-release-v1"
      999).length ≤ 63 :=
  ⟨⟨by decide, by decide⟩,
    (c3_branch_naming
      "release-release-release-release-release-release-release-release-release-release-v1"
      999 (by decide) (by decide)).2.1⟩
